import Mathlib

set_option maxRecDepth 16384

/-!
# MoonSync — verification of the spec's claims against the source

Shallow embedding of the MoonSync plugin's core algorithms:
the annotation decoder and position decoder (`src/plugin/src/parser/mrpro.ts`),
the markdown writer (`src/writer/markdown.ts`), the metadata merge
(`src/covers.ts` / `fetchBookInfo`) and the document synchronizer
(`src/sync.ts`: `processBook`, `findExistingFile`, `calculateSimilarity`,
`hasUserNotes`, `mergeExistingNoteWithHighlights`).

Strings are modelled as Lean `String`s, with the character-level operations
(trim, replace, split) re-implemented over `List Char` so that all
definitions evaluate inside the kernel.  JavaScript numbers that the code
only ever uses as integers are modelled as `Int`/`Nat`; the one fractional
quantity (reading progress, a one-decimal percentage) is modelled as `ℚ`.
JavaScript truthiness (`""`, `0` and `null` are falsy) is modelled
explicitly where the source relies on it.
-/

namespace MoonSync

/-! ## JavaScript-style character and string primitives -/

/-- The whitespace class used by JavaScript `trim` / `\s` (ASCII part). -/
def jsWhite (c : Char) : Bool :=
  c = ' ' || c = '\t' || c = '\n' || c = '\r' || c = '\x0b' || c = '\x0c'

/-- Trim from the left. -/
def trimLeft (l : List Char) : List Char := l.dropWhile jsWhite

/-- JavaScript `String.prototype.trim` on a character list. -/
def jsTrim (l : List Char) : List Char :=
  ((trimLeft l).reverse.dropWhile jsWhite).reverse

/-- JavaScript `trim` on a `String`. -/
def jsTrimStr (s : String) : String := ⟨jsTrim s.data⟩

/-- ASCII lower-casing, the fragment of JS `toLowerCase` the code relies on. -/
def toLowerStr (s : String) : String := ⟨s.data.map Char.toLower⟩

/-- `a.startsWith b` on character lists. -/
def isPrefix (p l : List Char) : Bool := List.isPrefixOf p l

/-- First position at which `p` occurs in `l`, scanning left to right. -/
def containsSeq (p : List Char) : List Char → Bool
  | [] => isPrefix p []
  | c :: cs => isPrefix p (c :: cs) || containsSeq p cs

/-- substring test on `String`s (JS `includes`). -/
def strContains (s pat : String) : Bool := containsSeq pat.data s.data

/-- Split a character list at every occurrence of `sep` (JS `split(sep)`). -/
def splitOnChar (sep : Char) : List Char → List (List Char)
  | [] => [[]]
  | c :: cs =>
    let r := splitOnChar sep cs
    if c = sep then [] :: r
    else
      match r with
      | [] => [[c]]
      | x :: xs => (c :: x) :: xs

/-- `String.split("\n")` as used throughout the source. -/
def splitLines (s : String) : List String :=
  (splitOnChar '\n' s.data).map fun l => ⟨l⟩

/-! ## C10 — `generateFilename` (`src/writer/markdown.ts:189`) -/

/-- The character class removed by `replace(/[<>:"\/\\|?*]/g, "")`. -/
def invalidFilenameChar (c : Char) : Bool :=
  c = '<' || c = '>' || c = ':' || c = '"' || c = '/' || c = '\\' ||
  c = '|' || c = '?' || c = '*'

/-- Worker for `collapseWs`; `inRun` records whether the previous character
was whitespace (so the run's later characters emit nothing). -/
def collapseGo (inRun : Bool) : List Char → List Char
  | [] => []
  | c :: cs =>
    if jsWhite c then
      if inRun then collapseGo true cs else ' ' :: collapseGo true cs
    else c :: collapseGo false cs

/-- `replace(/\s+/g, " ")`: collapse each whitespace run to one space. -/
def collapseWs (l : List Char) : List Char := collapseGo false l

/-- The sanitisation pipeline of `generateFilename` before truncation:
remove invalid filename characters, collapse whitespace runs, trim. -/
def sanitizeTitle (title : String) : List Char :=
  jsTrim (collapseWs (title.data.filter fun c => !invalidFilenameChar c))

/-- `generateFilename` from `src/writer/markdown.ts`: sanitise then
`substring(0, 100)`. -/
def generateFilename (title : String) : String :=
  ⟨(sanitizeTitle title).take 100⟩

/-- The vault path a book note is written to
(`normalizePath(outputPath + "/" + filename + ".md")`; `normalizePath` is
the host's path normaliser, the identity on the already-normal inputs the
synchronizer builds). -/
def bookNotePath (outputPath title : String) : String :=
  outputPath ++ "/" ++ generateFilename title ++ ".md"

/-! ## C1 — `calculateSimilarity` and `findExistingFile` (`src/sync.ts`) -/

/-- Inner loop of the Levenshtein matrix: given the cell to the left
(`left`), the diagonal cell (`diag`), the remaining characters of `str2`
and the remaining cells of the previous row, emit the rest of the current
row.  Mirrors the `matrix[i][j] = min(del, ins, subst)` loop. -/
def levGo (c1 : Char) : ℕ → ℕ → List Char → List ℕ → List ℕ
  | _, _, [], _ => []
  | _, _, _ :: _, [] => []
  | left, diag, c2 :: cs, up :: ups =>
    let cost : ℕ := if c1 = c2 then 0 else 1
    let v := Nat.min (left + 1) (Nat.min (up + 1) (diag + cost))
    v :: levGo c1 v up cs ups

/-- One row step of the distance matrix (`matrix[i]` from `matrix[i-1]`). -/
def levRowStep (s2 : List Char) (prev : List ℕ) (c1 : Char) : List ℕ :=
  match prev with
  | [] => []
  | p0 :: ps => (p0 + 1) :: levGo c1 (p0 + 1) p0 s2 ps

/-- The final matrix row after consuming all of `str1`; row 0 is
`[0, 1, …, len2]`. -/
def levLastRow (s1 s2 : List Char) : List ℕ :=
  s1.foldl (levRowStep s2) (List.range (s2.length + 1))

/-- `matrix[len1][len2]`, the Levenshtein distance of the source. -/
def levDistance (s1 s2 : List Char) : ℕ :=
  (levLastRow s1 s2).getLast?.getD 0

/-- `calculateSimilarity` from `src/sync.ts`: lowercase both strings and
return `1 - distance / maxLen` (with the identical/empty fast paths). -/
def calculateSimilarity (str1 str2 : String) : ℚ :=
  let s1 := toLowerStr str1
  let s2 := toLowerStr str2
  if s1 = s2 then 1
  else
    let len1 := s1.data.length
    let len2 := s2.data.length
    if len1 = 0 then (if len2 = 0 then 1 else 0)
    else if len2 = 0 then 0
    else 1 - (levDistance s1.data s2.data : ℚ) / (Nat.max len1 len2 : ℚ)

/-- `normalizeBookTitle` from `src/sync.ts`: strip a known e-book file
extension (case-insensitively) and trim. -/
def normalizeBookTitleSync (title : String) : String :=
  let exts := [".epub", ".mobi", ".pdf", ".azw3", ".azw", ".fb2", ".txt"]
  let lower := toLowerStr title
  match exts.find? (fun e => List.isPrefixOf e.data.reverse lower.data.reverse) with
  | some e => jsTrimStr ⟨title.data.take (title.data.length - e.data.length)⟩
  | none => jsTrimStr title

/-- One entry of the per-sync title cache (`buildTitleCache`). -/
structure TitleCacheEntry where
  normalizedTitle : String
  filePath : String
  deriving DecidableEq, Repr

/-- `SIMILARITY_THRESHOLD = 0.80`. -/
def similarityThreshold : ℚ := 4 / 5

/-- One iteration of the candidate scan in `findExistingFile`: keep the
entry when its similarity reaches the threshold and strictly beats the
best so far (`similarity > bestMatch.similarity`). -/
def fuzzyStep (normalizedBookTitle : String) (best : Option (String × ℚ))
    (e : TitleCacheEntry) : Option (String × ℚ) :=
  let sim := calculateSimilarity normalizedBookTitle e.normalizedTitle
  if similarityThreshold ≤ sim then
    match best with
    | none => some (e.filePath, sim)
    | some b => if b.2 < sim then some (e.filePath, sim) else some b
  else best

/-- The candidate scan of `findExistingFile`: keep the highest-scoring
cache entry with similarity at or above the threshold (the first of equal
maxima wins, as the comparison is strict). -/
def bestFuzzyMatch (normalizedBookTitle : String) (cache : List TitleCacheEntry) :
    Option (String × ℚ) :=
  cache.foldl (fuzzyStep normalizedBookTitle) none

/-- `findExistingFile` from `src/sync.ts`, with the document store
abstracted: `preferredExists` is the adapter `exists` check on the
canonical path and `renameOk` the success of the best-effort `rename`.
Returns the path the synchronizer continues with. -/
def findExistingFile (preferredExists : Bool) (preferredPath bookTitle : String)
    (cache : List TitleCacheEntry) (renameOk : Bool) : String :=
  if preferredExists then preferredPath
  else
    match bestFuzzyMatch (normalizeBookTitleSync bookTitle) cache with
    | some (path, _) =>
      if path ≠ preferredPath then (if renameOk then preferredPath else path)
      else path
    | none => preferredPath

/-- Whether `findExistingFile` attempts the rename to the canonical name. -/
def findExistingFileRenames (preferredExists : Bool) (preferredPath bookTitle : String)
    (cache : List TitleCacheEntry) : Bool :=
  if preferredExists then false
  else
    match bestFuzzyMatch (normalizeBookTitleSync bookTitle) cache with
    | some (path, _) => path ≠ preferredPath
    | none => false

/-! ## C9 — `parseProgressFile` (`src/plugin/src/parser/mrpro.ts:244`) -/

/-- `parseInt` on a pure digit run. -/
def digitsToNat (l : List Char) : ℕ :=
  l.foldl (fun n c => 10 * n + (c.toNat - 48)) 0

/-- `parseFloat` on `\d+.\d+`, modelled as the exact decimal rational
(`intPart.fracPart` with `fracLen` fraction digits). -/
def decimalRat (intPart fracVal fracLen : ℕ) : ℚ :=
  (intPart : ℚ) + (fracVal : ℚ) / (10 : ℚ) ^ fracLen

/-- The result of the position decoder. -/
structure ProgressData where
  timestamp : ℕ
  chapter : ℕ
  progress : ℚ
  deriving DecidableEq, Repr

/-- Consume `\d+` followed by the literal separator `sep` (one
capture-then-separator step of the anchored pattern). -/
def expectSep (sep : Char) (l : List Char) : Option (List Char × List Char) :=
  match l.dropWhile Char.isDigit with
  | c :: r =>
    if l.takeWhile Char.isDigit ≠ [] ∧ c = sep then
      some (l.takeWhile Char.isDigit, r)
    else none
  | [] => none

/-- Consume the trailing `(\d+(?:\.\d+)?)%` of the pattern and return the
captured percentage as a rational. -/
def parsePct (l : List Char) : Option ℚ :=
  match l.dropWhile Char.isDigit with
  | ['%'] =>
    if l.takeWhile Char.isDigit = [] then none
    else some (digitsToNat (l.takeWhile Char.isDigit) : ℚ)
  | '.' :: r =>
    if l.takeWhile Char.isDigit = [] then none
    else
      match r.dropWhile Char.isDigit with
      | ['%'] =>
        if r.takeWhile Char.isDigit = [] then none
        else
          some (decimalRat (digitsToNat (l.takeWhile Char.isDigit))
            (digitsToNat (r.takeWhile Char.isDigit))
            (r.takeWhile Char.isDigit).length)
      | _ => none
  | _ => none

/-- `parseProgressFile` from `src/plugin/src/parser/mrpro.ts`: trim the file
content and match the anchored pattern
`^(\d+)\*(\d+)@\d+#\d+:(\d+(?:\.\d+)?)%$`, returning timestamp, chapter
and progress on success and `none` otherwise. -/
def parseProgressFile (s : String) : Option ProgressData :=
  match expectSep '*' (jsTrim s.data) with
  | some (a, r2) =>
    match expectSep '@' r2 with
    | some (b, r4) =>
      match expectSep '#' r4 with
      | some (_, r6) =>
        match expectSep ':' r6 with
        | some (_, r8) =>
          match parsePct r8 with
          | some q => some ⟨digitsToNat a, digitsToNat b, q⟩
          | none => none
        | none => none
      | none => none
    | none => none
  | none => none

/-- The declarative reading of the anchored five-field grammar
`timestamp*chapter@marker#position:percentage%`. -/
def matchesProgressGrammar (l : List Char) : Prop :=
  ∃ a b c d e f : List Char,
    (a.all Char.isDigit ∧ a ≠ []) ∧ (b.all Char.isDigit ∧ b ≠ []) ∧
    (c.all Char.isDigit ∧ c ≠ []) ∧ (d.all Char.isDigit ∧ d ≠ []) ∧
    (e.all Char.isDigit ∧ e ≠ []) ∧
    (f = [] ∨ ∃ g, f = '.' :: g ∧ g.all Char.isDigit ∧ g ≠ []) ∧
    l = a ++ '*' :: (b ++ '@' :: (c ++ '#' :: (d ++ ':' :: (e ++ f ++ ['%']))))

/-- Shorthand for the similarity computed inside the scan. -/
def entrySim (t : String) (e : TitleCacheEntry) : ℚ :=
  calculateSimilarity t e.normalizedTitle


/-! ## C2 — the annotation decoder (`parseAnnotationFile`,
`src/plugin/src/parser/mrpro.ts:128`) -/

/-- `replace(/<BR>/g, "\n")`: left-to-right, non-overlapping. -/
def replaceBR : List Char → List Char
  | '<' :: 'B' :: 'R' :: '>' :: rest => '\n' :: replaceBR rest
  | c :: rest => c :: replaceBR rest
  | [] => []

/-- `line.replace(/<BR>/g, "\n").trim()` applied to a payload line. -/
def processText (s : String) : String := ⟨jsTrim (replaceBR s.data)⟩

/-- JavaScript `parseInt(s, 10)`: skip leading whitespace, optional sign,
longest digit run.  A parse with no digits yields `NaN` in JS; the decoder
stores it unchecked, and we collapse it to 0 (the spec's "malformed numeric
fields default to 0"); no theorem below depends on that corner. -/
def jsParseInt (s : String) : Int :=
  match trimLeft s.data with
  | '-' :: rest => -(digitsToNat (rest.takeWhile Char.isDigit) : Int)
  | '+' :: rest => (digitsToNat (rest.takeWhile Char.isDigit) : Int)
  | l => (digitsToNat (l.takeWhile Char.isDigit) : Int)

/-- Strip a known e-book extension from the end of a title
(`/\.(epub|mobi|pdf|azw3?|fb2|txt)$/i`), case-insensitively. -/
def stripExtension (title : String) : String :=
  let exts := [".epub", ".mobi", ".pdf", ".azw3", ".azw", ".fb2", ".txt"]
  let lower := toLowerStr title
  match exts.find? (fun e => List.isPrefixOf e.data.reverse lower.data.reverse) with
  | some e => ⟨title.data.take (title.data.length - e.data.length)⟩
  | none => title

/-- `normalizeBookTitle` from `src/plugin/src/parser/mrpro.ts`: strip the
extension, then a trailing `" - Author"` suffix when the author is known,
then trim. -/
def normalizeBookTitleParser (title author : String) : String :=
  let n := stripExtension title
  let suffix := " - " ++ author
  if author ≠ "" ∧ List.isPrefixOf suffix.data.reverse n.data.reverse then
    jsTrimStr ⟨n.data.take (n.data.length - suffix.data.length)⟩
  else jsTrimStr n

/-- One decoded highlight (`MoonReaderHighlight`); the constant fields
`bookmark: ""`, `underline: false`, `strikethrough: false` of the source
record are omitted. -/
structure MRHighlight where
  id : Int
  book : String
  filename : String
  chapter : Int
  position : Int
  highlightLength : Int
  highlightColor : Int
  timestamp : Int
  note : String
  text : String
  deriving DecidableEq, Repr

/-- Build the emitted record from the ten block fields plus payload
(the lowercased-path field and the ignored `0` placeholder are read but
unused; numeric fields go through `parseInt(lines[i++] || "0", 10)`). -/
def mkHighlight (author f1 f2 f3 f5 f7 f8 f9 f10 note text : String) : MRHighlight :=
  { id := jsParseInt (if f1 = "" then "0" else f1)
    book := normalizeBookTitleParser f2 author
    filename := f3
    chapter := jsParseInt (if f5 = "" then "0" else f5)
    position := jsParseInt (if f7 = "" then "0" else f7)
    highlightLength := jsParseInt (if f8 = "" then "0" else f8)
    highlightColor := jsParseInt (if f9 = "" then "0" else f9)
    timestamp := jsParseInt (if f10 = "" then "0" else f10)
    note := note
    text := text }

/-- The two-line-lookahead payload read (`mrpro.ts:175-192`): returns
`(text, note, remaining lines)`.  A leading `0` sentinel is left in place
for the trailing-sentinel skip. -/
def readPayload : List String → String × String × List String
  | [] => ("", "", [])
  | a :: r3 =>
    if a = "0" then ("", "", a :: r3)
    else
      let first := processText a
      match r3 with
      | b :: r4 =>
        if b ≠ "0" ∧ b ≠ "" then (processText b, first, r4)
        else (first, "", b :: r4)
      | [] => (first, "", [])

/-- A trailing-sentinel line: `"0"` or blank. -/
def isSentinelLine (x : String) : Bool := x == "0" || x == ""

/-- Skip the trailing `0`/blank run after a payload (`mrpro.ts:195`). -/
def skipSentinels (l : List String) : List String := l.dropWhile isSentinelLine

/-- The block loop of `parseAnnotationFile` (`mrpro.ts:150-219`): at a `#`
read ten field lines (stopping if the stream ends first, as the JS index
overruns), skip blanks, read the payload with two-line lookahead, skip
trailing sentinels, and emit the record only when the trimmed text is
non-empty. -/
def parseBlocks (author : String) : List String → List MRHighlight
  | [] => []
  | l :: ls =>
    if l = "#" then
      match ls with
      | f1 :: f2 :: f3 :: _f4 :: f5 :: _f6 :: f7 :: f8 :: f9 :: f10 :: rest =>
        let p := readPayload (rest.dropWhile (· == ""))
        let after := skipSentinels p.2.2
        if p.1 ≠ "" then
          mkHighlight author f1 f2 f3 f5 f7 f8 f9 f10 p.2.1 p.1 :: parseBlocks author after
        else parseBlocks author after
      | _ => []
    else parseBlocks author ls
termination_by l => l.length
decreasing_by
  · have hdw : ∀ {α : Type} (p : α → Bool) (t : List α),
        (t.dropWhile p).length ≤ t.length := by
      intro α p t
      induction t with
      | nil => simp
      | cons x t ih =>
        by_cases h : p x <;> simp [List.dropWhile_cons, h] <;> omega
    have hrp : ∀ t : List String, (readPayload t).2.2.length ≤ t.length := by
      intro t
      rcases t with - | ⟨a, r3⟩
      · simp [readPayload]
      · by_cases ha : a = "0"
        · simp [readPayload, ha]
        · rcases r3 with - | ⟨b, r4⟩
          · simp [readPayload, ha]
          · by_cases hb : b ≠ "0" ∧ b ≠ "" <;>
              simp [readPayload, ha, hb] <;> omega
    have key : (skipSentinels (readPayload (rest.dropWhile (· == ""))).2.2).length
        ≤ rest.length :=
      le_trans (hdw _ _) (le_trans (hrp _) (hdw _ _))
    simp only [skipSentinels, List.length_cons] at key ⊢
    omega
  · have hdw : ∀ {α : Type} (p : α → Bool) (t : List α),
        (t.dropWhile p).length ≤ t.length := by
      intro α p t
      induction t with
      | nil => simp
      | cons x t ih =>
        by_cases h : p x <;> simp [List.dropWhile_cons, h] <;> omega
    have hrp : ∀ t : List String, (readPayload t).2.2.length ≤ t.length := by
      intro t
      rcases t with - | ⟨a, r3⟩
      · simp [readPayload]
      · by_cases ha : a = "0"
        · simp [readPayload, ha]
        · rcases r3 with - | ⟨b, r4⟩
          · simp [readPayload, ha]
          · by_cases hb : b ≠ "0" ∧ b ≠ "" <;>
              simp [readPayload, ha, hb] <;> omega
    have key : (skipSentinels (readPayload (rest.dropWhile (· == ""))).2.2).length
        ≤ rest.length :=
      le_trans (hdw _ _) (le_trans (hrp _) (hdw _ _))
    simp only [skipSentinels, List.length_cons] at key ⊢
    omega
  · simp [Nat.lt_succ_iff]

/-- The preamble skip (`mrpro.ts:145`): drop lines until the first `#`. -/
def skipPreamble (lines : List String) : List String :=
  lines.dropWhile (fun l => l != "#")

/-- `parseAnnotationFile` on the decompressed line list (decompression and
the filename-derived fallback title/author are the caller's concern; the
`author` argument is the filename-parsed author used for title
normalisation). -/
def parseAnnotationLines (author : String) (lines : List String) : List MRHighlight :=
  parseBlocks author (skipPreamble lines)

/-- A synthetic well-formed block: `#`, ten field lines, a blank run, a
payload of zero, one or two lines, and a trailing sentinel run. -/
structure RawBlock where
  f1 : String
  f2 : String
  f3 : String
  f4 : String
  f5 : String
  f6 : String
  f7 : String
  f8 : String
  f9 : String
  f10 : String
  blanks : List String
  payload : List String
  sentinels : List String
  deriving Repr

/-- The lines a block contributes to the stream. -/
def RawBlock.lines (b : RawBlock) : List String :=
  "#" :: b.f1 :: b.f2 :: b.f3 :: b.f4 :: b.f5 :: b.f6 :: b.f7 :: b.f8 :: b.f9 :: b.f10 ::
    (b.blanks ++ b.payload ++ b.sentinels)

/-- Well-formedness of a synthetic block: blanks are blank, sentinels are
`0`/blank, and the payload lines are neither blank nor the `0` sentinel
(with enough trailing sentinels for the lookahead to terminate the block:
an empty payload needs a `0` after the blank run, a one-line payload needs
at least one sentinel line). -/
def RawBlock.wfB (b : RawBlock) : Bool :=
  b.blanks.all (· == "") &&
  b.sentinels.all isSentinelLine &&
  (match b.payload with
    | [] => !(b.sentinels.dropWhile (· == "")).isEmpty
    | [t] => (t != "0") && (t != "") && !b.sentinels.isEmpty
    | [n, t] => (n != "0") && (n != "") && (t != "0") && (t != "")
    | _ => false)

/-- Propositional well-formedness. -/
def RawBlock.WF (b : RawBlock) : Prop := b.wfB = true

instance (b : RawBlock) : Decidable b.WF := by
  unfold RawBlock.WF
  infer_instance

/-- The record a block is expected to produce: one-line payloads are pure
highlight text, two-line payloads are note-then-text, and a record is
emitted only when the processed text is non-empty. -/
def RawBlock.record (author : String) (b : RawBlock) : Option MRHighlight :=
  match b.payload with
  | [t] =>
    if processText t ≠ "" then
      some (mkHighlight author b.f1 b.f2 b.f3 b.f5 b.f7 b.f8 b.f9 b.f10 "" (processText t))
    else none
  | [n, t] =>
    if processText t ≠ "" then
      some (mkHighlight author b.f1 b.f2 b.f3 b.f5 b.f7 b.f8 b.f9 b.f10
        (processText n) (processText t))
    else none
  | _ => none

/-- The concatenated lines of a block list. -/
def blocksLines : List RawBlock → List String
  | [] => []
  | b :: bs => b.lines ++ blocksLines bs

/-! ## C7 — `fetchBookInfo` metadata merge (`src/covers.ts:254`) -/

/-- JavaScript `a || b` on nullable strings (`null` and `""` are falsy). -/
def jsOrStr (a b : Option String) : Option String :=
  match a with
  | some s => if s = "" then b else some s
  | none => b

/-- JavaScript `a || b` on nullable numbers (`null` and `0` are falsy). -/
def jsOrNum (a b : Option Int) : Option Int :=
  match a with
  | some n => if n = 0 then b else some n
  | none => b

/-- JS truthiness of a nullable string. -/
def truthyStr : Option String → Bool
  | some s => s ≠ ""
  | none => false

/-- JS truthiness of a nullable number. -/
def truthyNum : Option Int → Bool
  | some n => n ≠ 0
  | none => false

/-- The per-source lookup results (`OpenLibraryResult`, source A). -/
structure OpenLibraryResult where
  title : Option String := none
  coverUrl : Option String := none
  description : Option String := none
  author : Option String := none
  publishedDate : Option String := none
  publisher : Option String := none
  pageCount : Option Int := none
  genres : Option (List String) := none
  series : Option String := none
  language : Option String := none
  deriving DecidableEq, Repr

/-- The per-source lookup results (`GoogleBooksResult`, source B; it has no
series field). -/
structure GoogleBooksResult where
  title : Option String := none
  coverUrl : Option String := none
  description : Option String := none
  author : Option String := none
  publishedDate : Option String := none
  publisher : Option String := none
  pageCount : Option Int := none
  genres : Option (List String) := none
  language : Option String := none
  deriving DecidableEq, Repr

/-- The merged record (`BookInfoResult`). -/
structure BookInfoResult where
  title : Option String := none
  coverUrl : Option String := none
  description : Option String := none
  author : Option String := none
  source : Option String := none
  publishedDate : Option String := none
  publisher : Option String := none
  pageCount : Option Int := none
  genres : Option (List String) := none
  series : Option String := none
  language : Option String := none
  deriving DecidableEq, Repr

/-- One step of the Open Library genre fold: append unless a
case-insensitive duplicate is already present. -/
def genreStep (acc : List String) (g : String) : List String :=
  if acc.any (fun g2 => toLowerStr g2 = toLowerStr g) then acc else acc ++ [g]

/-- The genre merge of `fetchBookInfo`: Google Books entries first (a
non-null empty array is truthy, hence kept), then each Open Library entry
not already present case-insensitively. -/
def mergeGenres (gb ol : Option (List String)) : List String :=
  let base := match gb with
    | some gs => gs
    | none => []
  match ol with
  | some os => os.foldl genreStep base
  | none => base

/-- `fetchBookInfo` from `src/covers.ts`: merge the two per-source results
with the field-preference rules of the source (the two network fetches and
their per-source fault isolation are the caller's concern; a failed source
arrives here as an all-null record). -/
def fetchBookInfo (ol : OpenLibraryResult) (gb : GoogleBooksResult) : BookInfoResult :=
  let coverUrl := jsOrStr ol.coverUrl gb.coverUrl
  let description := jsOrStr gb.description ol.description
  let genres := mergeGenres gb.genres ol.genres
  { title := jsOrStr gb.title ol.title
    coverUrl := coverUrl
    description := description
    author := jsOrStr gb.author ol.author
    source :=
      if truthyStr coverUrl || truthyStr description then
        (if truthyStr gb.description then some "googlebooks" else some "openlibrary")
      else none
    publishedDate := jsOrStr gb.publishedDate ol.publishedDate
    publisher := jsOrStr gb.publisher ol.publisher
    pageCount := jsOrNum gb.pageCount ol.pageCount
    genres := if genres.length > 0 then some genres else none
    series := ol.series
    language := jsOrStr gb.language ol.language }

/-! ## The document writer (`src/writer/markdown.ts:13`, `generateBookNote`)
and the synchronizer decision logic (`src/sync.ts`, `processBook`) -/

/-- Civil date from days since the Unix epoch (the Gregorian-calendar
conversion underlying JS `Date`): returns (year, month, day). -/
def civilFromDays (z0 : Int) : Int × ℕ × ℕ :=
  let z := z0 + 719468
  let era := z.fdiv 146097
  let doe := (z - era * 146097).toNat
  let yoe := (doe - doe / 1460 + doe / 36524 - doe / 146096) / 365
  let doy := doe - (365 * yoe + yoe / 4 - yoe / 100)
  let mp := (5 * doy + 2) / 153
  let d := doy - (153 * mp + 2) / 5 + 1
  let m := if mp < 10 then mp + 3 else mp - 9
  (era * 400 + yoe + (if m ≤ 2 then 1 else 0), m, d)

/-- Zero-pad to two digits. -/
def pad2 (n : ℕ) : String := if n < 10 then "0" ++ toString n else toString n

/-- `new Date(ms).toISOString().split("T")[0]`: the UTC calendar date. -/
def toISODate (ms : Int) : String :=
  let c := civilFromDays (ms.fdiv 86400000)
  toString c.1 ++ "-" ++ pad2 c.2.1 ++ "-" ++ pad2 c.2.2

/-- `formatDate` from `src/types.ts`: `toLocaleDateString("en-US", {month:
"short", day: "numeric", year: "numeric"})`.  The host's local timezone is
modelled as UTC. -/
def formatDate (ts : Int) : String :=
  let c := civilFromDays (ts.fdiv 86400000)
  let months := ["Jan", "Feb", "Mar", "Apr", "May", "Jun",
                 "Jul", "Aug", "Sep", "Oct", "Nov", "Dec"]
  (months.getD (c.2.1 - 1) "") ++ " " ++ toString c.2.2 ++ ", " ++ toString c.1

/-- `formatDuration` from `src/types.ts`. -/
def formatDuration (ms : Int) : String :=
  let totalMinutes := ms.fdiv 60000
  let hours := totalMinutes.fdiv 60
  let minutes := totalMinutes % 60
  if hours > 0 then toString hours ++ "h " ++ toString minutes ++ "m"
  else toString minutes ++ "m"

/-- `getCalloutType` from `src/types.ts`: classify the packed RGB colour
by the dominant-channel threshold chain, first match wins. -/
def getCalloutType (colorInt : Int) : String :=
  let u := (colorInt % 4294967296).toNat
  let r := u / 65536 % 256
  let g := u / 256 % 256
  let b := u % 256
  if r > 200 ∧ g > 200 ∧ b < 100 then "quote"
  else if b > r ∧ b > g ∧ b > 150 then "info"
  else if g > r ∧ g > b ∧ g > 150 then "tip"
  else if r > g ∧ r > b ∧ r > 150 then "warning"
  else if r > 200 ∧ g > 100 ∧ g < 200 ∧ b < 100 then "warning"
  else "quote"

/-- `Number.prototype.toFixed(1)` on a non-negative rational (progress is
a percentage): round to the nearest tenth, half away from zero. -/
def toFixed1 (q : ℚ) : String :=
  let n : Int := (q.num * 20 + q.den) / (2 * q.den)
  toString (n / 10) ++ "." ++ toString (n % 10)

/-- `escapeYaml` from `src/writer/markdown.ts`: escape double quotes and
flatten newlines to spaces. -/
def escapeYaml (s : String) : String :=
  ⟨s.data.foldr
    (fun c acc =>
      if c = '"' then '\\' :: '"' :: acc
      else if c = '\n' then ' ' :: acc
      else c :: acc) []⟩

/-- `s.startsWith(pre)`. -/
def strStarts (s pre : String) : Bool := isPrefix pre.data s.data

/-- `parseCategory` from `src/writer/markdown.ts`: first trimmed line that
is non-empty and starts with neither `<` nor `#`. -/
def parseCategory (categoryField : String) : String :=
  let ls := (splitLines categoryField).map jsTrimStr
  (ls.filter fun l => l ≠ "" && !(strStarts l "<") && !(strStarts l "#")).headD ""

/-- The display settings consumed by the writer and synchronizer. -/
structure MoonSyncSettings where
  showReadingProgress : Bool
  showDescription : Bool
  showHighlightColors : Bool
  showNotes : Bool
  trackBooksWithoutHighlights : Bool
  deriving DecidableEq, Repr

/-- The book header data the writer consumes (`MoonReaderBook`; unused
display fields omitted). -/
structure MoonReaderBook where
  title : String
  filename : String
  author : String
  description : String
  category : String
  deriving DecidableEq, Repr

/-- Reading statistics (`usedTime` is all the writer reads). -/
structure Statistics where
  usedTime : Int
  deriving DecidableEq, Repr

/-- The per-book aggregate (`BookData`). -/
structure BookData where
  book : MoonReaderBook
  highlights : List MRHighlight
  statistics : Option Statistics
  progress : Option ℚ
  currentChapter : Option Int
  lastReadTimestamp : Option Int
  coverPath : Option String
  fetchedDescription : Option String
  publishedDate : Option String
  publisher : Option String
  pageCount : Option Int
  genres : Option (List String)
  series : Option String
  isbn10 : Option String
  isbn13 : Option String
  language : Option String
  deriving DecidableEq, Repr

/-- `formatHighlight` from `src/writer/markdown.ts`. -/
def formatHighlight (h : MRHighlight) (useColors showNotes : Bool) : String :=
  let calloutType := if useColors then getCalloutType h.highlightColor else "quote"
  let dateStr := if h.timestamp ≠ 0 then formatDate h.timestamp else ""
  let chapterStr := if h.chapter > 0 then "Chapter " ++ toString h.chapter else ""
  let headerParts := [chapterStr, dateStr].filter (fun p => p ≠ "")
  let header := String.intercalate " • " headerParts
  let first := if header ≠ "" then "> [!" ++ calloutType ++ "] " ++ header
    else "> [!" ++ calloutType ++ "]"
  let textLines :=
    if h.text ≠ "" then (splitLines (jsTrimStr h.text)).map (fun ln => "> " ++ ln)
    else []
  let noteLines :=
    if showNotes && h.note ≠ "" && jsTrimStr h.note ≠ "" then
      [">", "> ---", "> **Note:** " ++ jsTrimStr h.note]
    else []
  String.intercalate "\n" (first :: (textLines ++ noteLines))

/-- `generateBookNote` from `src/writer/markdown.ts` (the current writer):
frontmatter, title/author, cover, optional progress and description
sections, highlights.  `today` stands for `new Date().toISOString()`'s
date part, the only wall-clock input. -/
def generateBookNote (bd : BookData) (st : MoonSyncSettings) (today : String) : String :=
  let b := bd.book
  let notesCount := (bd.highlights.filter fun h => h.note ≠ "" && jsTrimStr h.note ≠ "").length
  let description :=
    if bd.fetchedDescription.getD "" ≠ "" then bd.fetchedDescription.getD ""
    else b.description
  let fm :=
    ["---", "title: \"" ++ escapeYaml b.title ++ "\""]
    ++ (if b.author ≠ "" then ["author: \"" ++ escapeYaml b.author ++ "\""] else [])
    ++ (if b.category ≠ "" then
          (let c := parseCategory b.category
           if c ≠ "" then ["category: \"" ++ escapeYaml c ++ "\""] else [])
        else [])
    ++ (match bd.progress with
        | some p => ["progress: " ++ toFixed1 p ++ "%"]
        | none => [])
    ++ (match bd.currentChapter with
        | some c => ["current_chapter: " ++ toString c]
        | none => [])
    ++ (match bd.statistics with
        | some stt => if stt.usedTime ≠ 0 then
            ["reading_time: \"" ++ formatDuration stt.usedTime ++ "\""] else []
        | none => [])
    ++ ["last_synced: " ++ today,
        "moon_reader_path: \"" ++ escapeYaml b.filename ++ "\"",
        "highlights_count: " ++ toString bd.highlights.length,
        "notes_count: " ++ toString notesCount]
    ++ (match bd.publishedDate with
        | some v => if v ≠ "" then ["published_date: \"" ++ escapeYaml v ++ "\""] else []
        | none => [])
    ++ (match bd.publisher with
        | some v => if v ≠ "" then ["publisher: \"" ++ escapeYaml v ++ "\""] else []
        | none => [])
    ++ (match bd.pageCount with
        | some n => ["page_count: " ++ toString n]
        | none => [])
    ++ (match bd.genres with
        | some gs => if gs.length > 0 then
            "genres:" :: gs.map (fun g => "  - \"" ++ escapeYaml g ++ "\"") else []
        | none => [])
    ++ (match bd.series with
        | some v => if v ≠ "" then ["series: \"" ++ escapeYaml v ++ "\""] else []
        | none => [])
    ++ (match bd.isbn10 with
        | some v => if v ≠ "" then ["isbn_10: \"" ++ v ++ "\""] else []
        | none => [])
    ++ (match bd.isbn13 with
        | some v => if v ≠ "" then ["isbn_13: \"" ++ v ++ "\""] else []
        | none => [])
    ++ (match bd.language with
        | some v => if v ≠ "" then ["language: \"" ++ v ++ "\""] else []
        | none => [])
    ++ (match bd.coverPath with
        | some v => if v ≠ "" then ["cover: \"" ++ v ++ "\""] else []
        | none => [])
    ++ ["---"]
  let body :=
    ["# " ++ b.title]
    ++ (if b.author ≠ "" then ["**Author:** " ++ b.author] else [])
    ++ [""]
    ++ (match bd.coverPath with
        | some v => if v ≠ "" then ["![[" ++ v ++ "|200]]", ""] else []
        | none => [])
    ++ (if st.showReadingProgress && (bd.progress.isSome || bd.currentChapter.isSome) then
          ["## Reading Progress"]
          ++ (match bd.progress with
              | some p => ["- **Progress:** " ++ toFixed1 p ++ "%"]
              | none => [])
          ++ (match bd.currentChapter with
              | some c => ["- **Chapter:** " ++ toString c]
              | none => [])
          ++ [""]
        else [])
    ++ (if st.showDescription && description ≠ "" && (jsTrimStr description).length > 0 then
          ["## Description", jsTrimStr description, ""]
        else [])
    ++ (if bd.highlights.length > 0 then
          "## Highlights" :: "" ::
            (bd.highlights.foldr
              (fun h acc => formatHighlight h st.showHighlightColors st.showNotes :: "" :: acc)
              [])
        else [])
  String.intercalate "\n" (fm ++ body)

/-! ### the user-notes section machinery (`hasUserNotes`,
`mergeExistingNoteWithHighlights`, `src/sync.ts:1388-1439`) -/

/-- The lookahead of the capture in `/\n## My [Nn]otes\n([\s\S]*?)(?=\n##
|\n---|\s*$)/`: the lazy capture stops where the remainder starts a new
section, a rule, or is all-whitespace. -/
def myNotesStop (l : List Char) : Bool :=
  isPrefix "\n## ".data l || isPrefix "\n---".data l || l.all jsWhite

/-- The lazy capture: the shortest prefix whose remainder satisfies the
lookahead. -/
def myNotesCapture : List Char → List Char
  | [] => []
  | c :: cs => if myNotesStop (c :: cs) then [] else c :: myNotesCapture cs

/-- The leftmost occurrence of the `\n## My [Nn]otes\n` opener and its
captured section body. -/
def findMyNotesSection : List Char → Option (List Char)
  | [] => none
  | c :: cs =>
    if isPrefix "\n## My Notes\n".data (c :: cs) then
      some (myNotesCapture ((c :: cs).drop "\n## My Notes\n".length))
    else if isPrefix "\n## My notes\n".data (c :: cs) then
      some (myNotesCapture ((c :: cs).drop "\n## My notes\n".length))
    else findMyNotesSection cs

/-- The default placeholder callout (capital-N variant of the anchored
strip pattern). -/
def placeholderU : String :=
  "> [!moonsync-user-notes]+ Your Notes\n> Add your thoughts, analysis, and notes here. This section is preserved across syncs."

/-- The default placeholder callout (lower-case variant; also the literal
`placeholderInFresh` the merge substitutes). -/
def placeholderL : String :=
  "> [!moonsync-user-notes]+ Your notes\n> Add your thoughts, analysis, and notes here. This section is preserved across syncs."

/-- Drop one leading newline (the `\n?` tail of the placeholder pattern). -/
def dropOneNl : List Char → List Char
  | '\n' :: r => r
  | r => r

/-- `.replace(placeholderPattern, "")` on the section body: strip the
anchored placeholder (either capitalisation) and its optional newline. -/
def stripPlaceholder (l : List Char) : List Char :=
  if isPrefix placeholderU.data l then dropOneNl (l.drop placeholderU.length)
  else if isPrefix placeholderL.data l then dropOneNl (l.drop placeholderL.length)
  else l

/-- `hasUserNotes` from `src/sync.ts:1388`. -/
def hasUserNotes (content : String) : Bool :=
  match findMyNotesSection content.data with
  | none => false
  | some cap => (jsTrim (stripPlaceholder (jsTrim cap))).length > 0

/-- Replace the first occurrence of `pat` (JS `String.replace` with a
string pattern). -/
def replaceFirst (pat rep : List Char) : List Char → List Char
  | [] => []
  | c :: cs =>
    if isPrefix pat (c :: cs) then rep ++ (c :: cs).drop pat.length
    else c :: replaceFirst pat rep cs

/-- `mergeExistingNoteWithHighlights` from `src/sync.ts:1407`: extract the
user's section content (placeholder stripped, no pre-trim — the anchored
strip applies to the raw capture), regenerate the note, and substitute the
user content for the placeholder in the fresh note when non-empty. -/
def mergeExistingNoteWithHighlights (existingContent : String) (bd : BookData)
    (st : MoonSyncSettings) (today : String) : String :=
  let userNotesContent : String :=
    match findMyNotesSection existingContent.data with
    | none => ""
    | some cap => ⟨jsTrim (stripPlaceholder cap)⟩
  let freshNote := generateBookNote bd st today
  if userNotesContent ≠ "" then
    ⟨replaceFirst placeholderL.data userNotesContent.data freshNote.data⟩
  else freshNote

/-! ### frontmatter parsing and change detection -/

/-- Modelled from the spec: `parseFrontmatter` lives in the shared
`utils.ts`, which is not under `src/`.  Per §3 the persisted document's
header is a `---`-delimited key/value block holding title, highlight/note
counts, the content hash, progress, last-read date and the mode flags;
this parser reads those keys from the first frontmatter block (quoted
values unquoted, the `%` stripped from progress). -/
structure ParsedFrontmatter where
  title : Option String
  highlightsCount : Option Int
  highlightsHash : Option String
  progress : Option ℚ
  lastRead : Option String
  lastSynced : Option String
  isManualNote : Bool
  hasCustomMetadata : Bool

/-- Strip a matching pair of surrounding double quotes. -/
def unquote (s : String) : String :=
  match s.data with
  | '"' :: rest =>
    match rest.reverse with
    | '"' :: mid => ⟨mid.reverse⟩
    | _ => s
  | _ => s

/-- The value of the first `key: `-led line, unquoted. -/
def fmValue (fmLines : List String) (key : String) : Option String :=
  (fmLines.find? (fun l => strStarts l (key ++ ": "))).map
    (fun l => unquote ⟨l.data.drop (key.length + 2)⟩)

/-- Parse `\d+(\.\d+)?` as an exact rational (frontmatter progress values). -/
def parseDecimalQ (l : List Char) : Option ℚ :=
  let ip := l.takeWhile Char.isDigit
  if ip = [] then none
  else
    match l.dropWhile Char.isDigit with
    | [] => some (digitsToNat ip : ℚ)
    | '.' :: r =>
      let fp := r.takeWhile Char.isDigit
      if fp = [] then none
      else if r.dropWhile Char.isDigit = [] then
        some (decimalRat (digitsToNat ip) (digitsToNat fp) fp.length)
      else none
    | _ => none

/-- Modelled from the spec (see `ParsedFrontmatter`): read the header keys
from the first `---` block. -/
def parseFrontmatter (content : String) : ParsedFrontmatter :=
  match splitLines content with
  | "---" :: rest =>
    let fm := rest.takeWhile (fun l => l ≠ "---")
    { title := fmValue fm "title"
      highlightsCount := (fmValue fm "highlights_count").map jsParseInt
      highlightsHash := fmValue fm "highlights_hash"
      progress := (fmValue fm "progress").bind
        (fun v => parseDecimalQ ((v.data).takeWhile (· ≠ '%')))
      lastRead := fmValue fm "last_read"
      lastSynced := fmValue fm "last_synced"
      isManualNote := (fmValue fm "manual_note") = some "true"
      hasCustomMetadata := (fmValue fm "custom_metadata") = some "true" }
  | _ =>
    { title := none, highlightsCount := none, highlightsHash := none,
      progress := none, lastRead := none, lastSynced := none,
      isManualNote := false, hasCustomMetadata := false }

/-- The change-detection fields `getExistingBookData` extracts
(`src/sync.ts:1229-1266`). -/
structure ExistingBookData where
  highlightsCount : Int
  highlightsHash : Option String
  progress : Option ℚ
  lastRead : Option String
  isManualNote : Bool
  hasCustomMetadata : Bool
  fullContent : String

/-- `getExistingBookData`: `none` when the file does not exist or has no
`highlights_count` header. -/
def getExistingBookData (fileExists : Bool) (content : String) :
    Option ExistingBookData :=
  if fileExists then
    let p := parseFrontmatter content
    match p.highlightsCount with
    | some n =>
      some { highlightsCount := n, highlightsHash := p.highlightsHash,
             progress := p.progress, lastRead := p.lastRead,
             isManualNote := p.isManualNote,
             hasCustomMetadata := p.hasCustomMetadata,
             fullContent := content }
    | none => none
  else none

/-- Modelled from the spec: `computeHighlightsHash` lives in the shared
`utils.ts`, which is not under `src/`.  §3 specifies "a deterministic
hash over a highlight set" excluding the volatile last-synced field; the
digest is modelled as a deterministic injective encoding of the set. -/
def computeHighlightsHash (hs : List MRHighlight) : String :=
  String.intercalate "§" (hs.map fun h =>
    toString h.position ++ "|" ++ toString h.chapter ++ "|" ++ h.text ++ "|" ++ h.note)

/-- Modelled from the spec (§4.5, current `cache.ts` is not under `src/`):
a cached metadata entry; the outer `Option` is present-as-a-key (JSON has
the key, possibly `null`), matching `!== undefined` in `processBook`. -/
structure CachedBookInfo where
  title : Option (Option String) := none
  description : Option (Option String) := none
  author : Option (Option String) := none
  publishedDate : Option (Option String) := none
  publisher : Option (Option String) := none
  pageCount : Option (Option Int) := none
  genres : Option (Option (List String)) := none
  series : Option (Option String) := none
  language : Option (Option String) := none
  deriving DecidableEq, Repr

/-- The six-field presence check of `processBook` (`src/sync.ts:1615`):
every extended-metadata field present as a key (possibly null). -/
def hasAttemptedFetch (c : Option CachedBookInfo) : Bool :=
  match c with
  | none => false
  | some ci =>
    ci.publishedDate.isSome && ci.publisher.isSome && ci.pageCount.isSome &&
    ci.genres.isSome && ci.series.isSome && ci.language.isSome

/-- `new Date(ts).toISOString().split("T")[0]` on the nullable last-read
timestamp (`src/sync.ts:1668`). -/
def newLastRead (ts : Option Int) : Option String := ts.map toISODate

/-- `highlightsUnchanged` (`src/sync.ts:1664`): hash comparison when a
(truthy) stored hash exists, count comparison otherwise. -/
def highlightsUnchanged (ex : ExistingBookData) (hs : List MRHighlight) : Bool :=
  match ex.highlightsHash with
  | some h =>
    if h = "" then ex.highlightsCount == (hs.length : Int)
    else h == computeHighlightsHash hs
  | none => ex.highlightsCount == (hs.length : Int)

/-- The outcome of `processBook` for one book. -/
inductive SyncOutcome where
  | skipped
  | deleted
  | created
  | updated
  deriving DecidableEq, Repr

/-- The unchanged-check of `processBook` (`src/sync.ts:1659-1683`); falls
through to update when anything changed or the metadata fetch was never
attempted. -/
def skipCheck (bd : BookData) (ex : ExistingBookData)
    (cachedInfo : Option CachedBookInfo) : SyncOutcome :=
  if highlightsUnchanged ex bd.highlights
      ∧ ex.progress = bd.progress
      ∧ ex.lastRead = newLastRead bd.lastReadTimestamp
      ∧ hasAttemptedFetch cachedInfo then .skipped
  else .updated

/-- The create/update/skip/delete decision of `processBook`
(`src/sync.ts:1629-1683` and the final write at 1808-1816), as a pure
function of the book, the existing document, the tracking setting and the
cached metadata entry. -/
def processBookDecision (bd : BookData) (existing : Option ExistingBookData)
    (track : Bool) (cachedInfo : Option CachedBookInfo) : SyncOutcome :=
  match existing with
  | none =>
    if bd.highlights.isEmpty ∧ ¬ track then .skipped else .created
  | some ex =>
    if bd.highlights.isEmpty then
      if track then
        (if ex.highlightsCount = 0 then .skipped else skipCheck bd ex cachedInfo)
      else if hasUserNotes ex.fullContent then
        (if ex.highlightsCount = 0 then .skipped else skipCheck bd ex cachedInfo)
      else .deleted
    else skipCheck bd ex cachedInfo

/-! ### C8 — the metadata-attach phase of `processBook`
(`src/sync.ts:1685-1792`) -/

/-- Truthiness of a present-as-key nullable string. -/
def truthyOOStr : Option (Option String) → Bool
  | some (some s) => s ≠ ""
  | _ => false

/-- Apply the locally cached metadata to the book (`src/sync.ts:1695-1721`). -/
def applyCachedInfo (bd : BookData) (ci : CachedBookInfo) : BookData :=
  let bd := if truthyOOStr ci.description then
      { bd with fetchedDescription := some ((ci.description.getD none).getD "") } else bd
  let bd := if bd.book.author = "" && truthyOOStr ci.author then
      { bd with book := { bd.book with author := (ci.author.getD none).getD "" } } else bd
  let bd := if truthyOOStr ci.publishedDate then
      { bd with publishedDate := ci.publishedDate.getD none } else bd
  let bd := if truthyOOStr ci.publisher then
      { bd with publisher := ci.publisher.getD none } else bd
  let bd := match ci.pageCount with
    | some (some n) => { bd with pageCount := some n }
    | _ => bd
  let bd := match ci.genres with
    | some (some gs) => { bd with genres := some gs }
    | _ => bd
  let bd := if truthyOOStr ci.series then
      { bd with series := ci.series.getD none } else bd
  if truthyOOStr ci.language then
    { bd with language := ci.language.getD none } else bd

/-- Apply a fetched result to the book (`src/sync.ts:1727-1771`):
cover download only when the cover is missing and the download succeeds. -/
def applyBookInfo (bd : BookData) (info : BookInfoResult)
    (coverExists downloadOk : Bool) (coverRelPath : String) : BookData :=
  let bd := if truthyStr info.coverUrl && !coverExists && downloadOk then
      { bd with coverPath := some coverRelPath } else bd
  let bd := if truthyStr info.description then
      { bd with fetchedDescription := info.description } else bd
  let bd := if bd.book.author = "" && truthyStr info.author then
      { bd with book := { bd.book with author := info.author.getD "" } } else bd
  let bd := if truthyStr info.publishedDate then
      { bd with publishedDate := info.publishedDate } else bd
  let bd := if truthyStr info.publisher then
      { bd with publisher := info.publisher } else bd
  let bd := match info.pageCount with
    | some n => { bd with pageCount := some n }
    | none => bd
  let bd := match info.genres with
    | some gs => { bd with genres := some gs }
    | none => bd
  let bd := if truthyStr info.series then
      { bd with series := info.series } else bd
  if truthyStr info.language then
    { bd with language := info.language } else bd

/-- The metadata-attach phase of `processBook` (`src/sync.ts:1685-1792`):
apply cached data, then — only if the batch pre-fetch supplied a result —
apply it, download the cover and update the cache (`cacheModified`, the
returned flag).  There is no on-demand fetch: a missing prefetch entry
means no API call ("otherwise skip API call (was already batched)"). -/
def metadataPhase (bd : BookData) (cachedInfo : Option CachedBookInfo)
    (prefetched : Option BookInfoResult) (coverExists downloadOk : Bool)
    (coverRelPath : String) : BookData × Bool :=
  let bd1 := match cachedInfo with
    | some ci => applyCachedInfo bd ci
    | none => bd
  match prefetched with
  | some info =>
    let bd2 := applyBookInfo bd1 info coverExists downloadOk coverRelPath
    ((if coverExists then { bd2 with coverPath := some coverRelPath } else bd2), true)
  | none =>
    ((if coverExists then { bd1 with coverPath := some coverRelPath } else bd1), false)

/-! ### Concrete fixtures for the synchronizer claims -/

/-- Display settings with colours off (so no colour classification enters
the concrete outputs) and notes on. -/
def fixtureSettings : MoonSyncSettings := ⟨true, true, false, true, false⟩

/-- One decoded highlight with no note and no capture timestamp. -/
def fixtureHighlight : MRHighlight :=
  ⟨1, "Dune", "/books/Dune.epub", 1, 10, 4, 0, 0, "", "Fear is the mind-killer"⟩

/-- A book with one highlight and position-file data (progress 50.0,
chapter 3, last read 2023-11-14 UTC). -/
def fixtureBook : BookData :=
  { book := ⟨"Dune", "/books/Dune.epub", "Frank Herbert", "", ""⟩,
    highlights := [fixtureHighlight], statistics := none, progress := some 50,
    currentChapter := some 3, lastReadTimestamp := some 1700000000000,
    coverPath := none, fetchedDescription := none, publishedDate := none,
    publisher := none, pageCount := none, genres := none, series := none,
    isbn10 := none, isbn13 := none, language := none }

/-- The same book without position-file data. -/
def fixtureBookNoPo : BookData :=
  { fixtureBook with
      progress := none, currentChapter := none, lastReadTimestamp := none }

/-- A cache entry after one fetch attempt that found nothing: all six
extended-metadata keys present with null values. -/
def fixtureCacheFull : CachedBookInfo :=
  { publishedDate := some none, publisher := some none, pageCount := some none,
    genres := some none, series := some none, language := some none }

/-- The document written by the first sync pass over `fixtureBook`. -/
def fixtureFirstContent : String :=
  generateBookNote fixtureBook fixtureSettings "2026-10-12"

/-- What the second pass reads back from that document. -/
def fixtureExisting : Option ExistingBookData :=
  getExistingBookData true fixtureFirstContent

/-- An existing document whose free-form "My Notes" section holds
user-authored prose. -/
def fixtureUserContent : String :=
  "---\ntitle: \"Dune\"\nhighlights_count: 1\n---\n# Dune\n\n## My Notes\nMy deep thoughts\n\n## Highlights\n\n> [!quote]\n> Old text"

/-! # Theorems -/


/-- C10: the filename generator removes the forbidden characters, collapses
whitespace runs to single spaces, trims, and truncates to 100 characters;
hence titles whose sanitised forms agree on the first 100 characters get the
same document path. -/
theorem generateFilename_spec :
    (∀ title : String,
      (generateFilename title).data
        = (jsTrim (collapseWs
            (title.data.filter fun c => !invalidFilenameChar c))).take 100)
    ∧ (∀ out t₁ t₂ : String,
        (sanitizeTitle t₁).take 100 = (sanitizeTitle t₂).take 100 →
        bookNotePath out t₁ = bookNotePath out t₂) := by
  constructor
  · intro title
    rfl
  · intro out t₁ t₂ h
    have hf : generateFilename t₁ = generateFilename t₂ := by
      simp only [generateFilename, h]
    simp [bookNotePath, hf]

/-- Witness for `generateFilename_spec`: two distinct titles that agree on
the first 100 sanitised characters resolve to one path. -/
theorem generateFilename_spec_witness :
    (sanitizeTitle ⟨List.replicate 100 'a' ++ ['x']⟩).take 100
        = (sanitizeTitle ⟨List.replicate 100 'a' ++ ['y']⟩).take 100
    ∧ bookNotePath "Books" ⟨List.replicate 100 'a' ++ ['x']⟩
        = bookNotePath "Books" ⟨List.replicate 100 'a' ++ ['y']⟩ := by
  refine ⟨by decide, ?_⟩
  exact generateFilename_spec.2 "Books" _ _ (by decide)


/-! ### take/drop lemmas shared by the two parsers -/

lemma takeWhile_append_of {α : Type} (p : α → Bool) (xs ys : List α)
    (hx : ∀ x ∈ xs, p x = true) (hy : ∀ y, ys.head? = some y → p y = false) :
    (xs ++ ys).takeWhile p = xs := by
  induction xs with
  | nil =>
    cases ys with
    | nil => rfl
    | cons y t => simp [List.takeWhile_cons, hy y rfl]
  | cons x xs ih =>
    have hpx := hx x (List.mem_cons_self ..)
    simp only [List.cons_append, List.takeWhile_cons, hpx, if_true]
    exact congrArg (x :: ·) (ih fun a ha => hx a (List.mem_cons_of_mem _ ha))

lemma dropWhile_append_of {α : Type} (p : α → Bool) (xs ys : List α)
    (hx : ∀ x ∈ xs, p x = true) (hy : ∀ y, ys.head? = some y → p y = false) :
    (xs ++ ys).dropWhile p = ys := by
  induction xs with
  | nil =>
    cases ys with
    | nil => rfl
    | cons y t => simp [List.dropWhile_cons, hy y rfl]
  | cons x xs ih =>
    have hpx := hx x (List.mem_cons_self ..)
    simp only [List.cons_append, List.dropWhile_cons, hpx, if_true]
    exact ih fun a ha => hx a (List.mem_cons_of_mem _ ha)

lemma dropWhile_append_all {α : Type} (p : α → Bool) (xs ys : List α)
    (hx : ∀ x ∈ xs, p x = true) :
    (xs ++ ys).dropWhile p = ys.dropWhile p := by
  induction xs with
  | nil => rfl
  | cons x xs ih =>
    have hpx := hx x (List.mem_cons_self ..)
    simp only [List.cons_append, List.dropWhile_cons, hpx, if_true]
    exact ih fun a ha => hx a (List.mem_cons_of_mem _ ha)

lemma all_takeWhile {α : Type} (p : α → Bool) (l : List α) :
    (l.takeWhile p).all p = true := by
  induction l with
  | nil => rfl
  | cons c t ih =>
    by_cases h : p c <;> simp [List.takeWhile_cons, h, ih]

lemma mem_dropWhile {α : Type} (p : α → Bool) (l : List α) :
    ∀ x ∈ l.dropWhile p, x ∈ l := by
  induction l with
  | nil => simp
  | cons c t ih =>
    intro x hx
    by_cases h : p c
    · simp only [List.dropWhile_cons, h, if_true] at hx
      exact List.mem_cons_of_mem _ (ih x hx)
    · simp only [List.dropWhile_cons, h, if_false] at hx
      exact hx

/-! ### Characterisation of the fuzzy-match fold -/

lemma fuzzyStep_cases (t : String) (acc : Option (String × ℚ)) (e : TitleCacheEntry) :
    (entrySim t e < similarityThreshold ∧ fuzzyStep t acc e = acc) ∨
    (similarityThreshold ≤ entrySim t e ∧
      ((acc = none ∧ fuzzyStep t acc e = some (e.filePath, entrySim t e)) ∨
        (∃ b, acc = some b ∧ b.2 < entrySim t e ∧
          fuzzyStep t acc e = some (e.filePath, entrySim t e)) ∨
        (∃ b, acc = some b ∧ entrySim t e ≤ b.2 ∧ fuzzyStep t acc e = some b))) := by
  by_cases hθ : similarityThreshold ≤ entrySim t e
  · refine Or.inr ⟨hθ, ?_⟩
    rcases acc with _ | b
    · exact Or.inl ⟨rfl, by simp [fuzzyStep, entrySim] at hθ ⊢; simp [hθ]⟩
    · by_cases hb : b.2 < entrySim t e
      · refine Or.inr (Or.inl ⟨b, rfl, hb, ?_⟩)
        simp only [fuzzyStep, entrySim] at hθ hb ⊢
        simp [hθ, hb]
      · refine Or.inr (Or.inr ⟨b, rfl, not_lt.mp hb, ?_⟩)
        simp only [fuzzyStep, entrySim] at hθ hb ⊢
        simp [hθ, hb]
  · refine Or.inl ⟨not_le.mp hθ, ?_⟩
    simp only [fuzzyStep, entrySim] at hθ ⊢
    simp [hθ]

lemma fuzzyFold_none_iff (t : String) :
    ∀ (cache : List TitleCacheEntry) (acc : Option (String × ℚ)),
      cache.foldl (fuzzyStep t) acc = none ↔
        acc = none ∧ ∀ e ∈ cache, entrySim t e < similarityThreshold := by
  intro cache
  induction cache with
  | nil => simp
  | cons e cache ih =>
    intro acc
    simp only [List.foldl_cons, ih, List.mem_cons]
    rcases fuzzyStep_cases t acc e with ⟨hlt, hstep⟩ |
      ⟨hθ, ⟨-, hstep⟩ | ⟨b, -, -, hstep⟩ | ⟨b, hb, -, hstep⟩⟩
    · rw [hstep]
      constructor
      · rintro ⟨h1, h2⟩
        exact ⟨h1, by rintro x (rfl | hx); exacts [hlt, h2 x hx]⟩
      · rintro ⟨h1, h2⟩
        exact ⟨h1, fun x hx => h2 x (Or.inr hx)⟩
    all_goals
      rw [hstep]
      constructor
      · rintro ⟨h1, -⟩; cases h1
      · rintro ⟨-, h2⟩
        exact absurd (h2 e (Or.inl rfl)) (not_lt.mpr hθ)

lemma fuzzyFold_some (t : String) :
    ∀ (cache : List TitleCacheEntry) (acc : Option (String × ℚ)) (p : String) (s : ℚ),
      cache.foldl (fuzzyStep t) acc = some (p, s) →
        acc = some (p, s) ∨
          ∃ e ∈ cache, p = e.filePath ∧ s = entrySim t e ∧ similarityThreshold ≤ s := by
  intro cache
  induction cache with
  | nil =>
    intro acc p s h
    simp only [List.foldl_nil] at h
    exact Or.inl h
  | cons e cache ih =>
    intro acc p s h
    simp only [List.foldl_cons] at h
    rcases ih _ p s h with hacc | ⟨e', he', rest⟩
    · rcases fuzzyStep_cases t acc e with ⟨-, hstep⟩ |
        ⟨hθ, ⟨-, hstep⟩ | ⟨b, hb, -, hstep⟩ | ⟨b, hb, -, hstep⟩⟩
      · exact Or.inl (hstep ▸ hacc)
      · rw [hstep] at hacc
        obtain ⟨h1, h2⟩ := Prod.mk.injEq .. ▸ Option.some.inj hacc
        exact Or.inr ⟨e, List.mem_cons_self .., h1.symm, h2.symm, h2 ▸ hθ⟩
      · rw [hstep] at hacc
        obtain ⟨h1, h2⟩ := Prod.mk.injEq .. ▸ Option.some.inj hacc
        exact Or.inr ⟨e, List.mem_cons_self .., h1.symm, h2.symm, h2 ▸ hθ⟩
      · rw [hstep] at hacc
        rw [hb, hacc] at *
        exact Or.inl rfl
    · exact Or.inr ⟨e', List.mem_cons_of_mem _ he', rest⟩

lemma fuzzyFold_max (t : String) :
    ∀ (cache : List TitleCacheEntry) (acc : Option (String × ℚ)) (p : String) (s : ℚ),
      cache.foldl (fuzzyStep t) acc = some (p, s) →
        (∀ b : String × ℚ, acc = some b → b.2 ≤ s) ∧
          ∀ e ∈ cache, entrySim t e < similarityThreshold ∨ entrySim t e ≤ s := by
  intro cache
  induction cache with
  | nil =>
    intro acc p s h
    simp only [List.foldl_nil] at h
    refine ⟨?_, by simp⟩
    intro b hb
    rw [hb] at h
    obtain ⟨-, h2⟩ := Prod.mk.injEq .. ▸ Option.some.inj h
    exact le_of_eq h2
  | cons e cache ih =>
    intro acc p s h
    simp only [List.foldl_cons] at h
    obtain ⟨hacc', hrest⟩ := ih _ p s h
    have step_ge : ∀ b : String × ℚ, acc = some b →
        ∃ b' : String × ℚ, fuzzyStep t acc e = some b' ∧ b.2 ≤ b'.2 := by
      intro b hb
      rcases fuzzyStep_cases t acc e with ⟨-, hstep⟩ |
        ⟨-, ⟨hnone, -⟩ | ⟨b'', hb'', hlt, hstep⟩ | ⟨b'', hb'', -, hstep⟩⟩
      · exact ⟨b, hstep.trans hb, le_refl _⟩
      · rw [hb] at hnone; cases hnone
      · rw [hb] at hb''
        obtain rfl := Option.some.inj hb''
        exact ⟨_, hstep, le_of_lt hlt⟩
      · rw [hb] at hb''
        obtain rfl := Option.some.inj hb''
        exact ⟨b, hstep, le_refl _⟩
    refine ⟨?_, ?_⟩
    · intro b hb
      obtain ⟨b', hb', hle⟩ := step_ge b hb
      exact le_trans hle (hacc' b' hb')
    · intro x hx
      rcases List.mem_cons.mp hx with rfl | hx'
      · rcases fuzzyStep_cases t acc x with ⟨hlt, -⟩ |
          ⟨hθ, ⟨-, hstep⟩ | ⟨b, -, -, hstep⟩ | ⟨b, -, hle, hstep⟩⟩
        · exact Or.inl hlt
        · exact Or.inr (hacc' _ hstep)
        · exact Or.inr (hacc' _ hstep)
        · exact Or.inr (le_trans hle (hacc' _ hstep))
      · exact hrest x hx'

/-- Closed-form evaluation helper for `calculateSimilarity` in the generic
(unequal, non-empty) case. -/
lemma calculateSimilarity_eval (str1 str2 : String) (d m : ℕ)
    (hne : toLowerStr str1 ≠ toLowerStr str2)
    (h1 : (toLowerStr str1).data.length ≠ 0)
    (h2 : (toLowerStr str2).data.length ≠ 0)
    (hd : levDistance (toLowerStr str1).data (toLowerStr str2).data = d)
    (hm : Nat.max (toLowerStr str1).data.length (toLowerStr str2).data.length = m) :
    calculateSimilarity str1 str2 = 1 - (d : ℚ) / (m : ℚ) := by
  unfold calculateSimilarity
  simp only []
  rw [if_neg hne, if_neg h1, if_neg h2, hd, hm]

/-- C1 counterexample: the spec's flagship fuzzy-match example fails.  The
similarity between the lowercased titles "we are legion (we are bob)" and
"we are legion" is `1 - 13/26 = 1/2`, below the 0.80 threshold, so a
stored "We Are Legion" document is neither matched nor renamed — the
synchronizer falls back to the canonical path. -/
theorem calculateSimilarity_we_are_legion_counterexample :
    calculateSimilarity "We Are Legion (We Are Bob)" "We Are Legion" = 1 / 2 ∧
    ¬ similarityThreshold ≤ calculateSimilarity "We Are Legion (We Are Bob)" "We Are Legion" ∧
    findExistingFile false "Books/We Are Legion (We Are Bob).md"
        "We Are Legion (We Are Bob)"
        [⟨"We Are Legion", "Books/We Are Legion.md"⟩] true
      = "Books/We Are Legion (We Are Bob).md" ∧
    findExistingFileRenames false "Books/We Are Legion (We Are Bob).md"
        "We Are Legion (We Are Bob)"
        [⟨"We Are Legion", "Books/We Are Legion.md"⟩] = false := by
  have hsim : calculateSimilarity "We Are Legion (We Are Bob)" "We Are Legion" = 1 / 2 := by
    rw [calculateSimilarity_eval _ _ 13 26 (by decide) (by decide) (by decide)
      (by decide) (by decide)]
    norm_num
  have hnorm : normalizeBookTitleSync "We Are Legion (We Are Bob)"
      = "We Are Legion (We Are Bob)" := by decide
  have hlt : ¬ similarityThreshold ≤ (1 / 2 : ℚ) := by
    rw [similarityThreshold]; norm_num
  have hbm : bestFuzzyMatch (normalizeBookTitleSync "We Are Legion (We Are Bob)")
      [⟨"We Are Legion", "Books/We Are Legion.md"⟩] = none := by
    simp only [bestFuzzyMatch, List.foldl_cons, List.foldl_nil, fuzzyStep, hnorm]
    rw [hsim, if_neg hlt]
  refine ⟨hsim, by rw [hsim]; exact hlt, ?_, ?_⟩
  · simp only [findExistingFile, if_neg (Bool.false_ne_true)]
    rw [hbm]
  · simp only [findExistingFileRenames, if_neg (Bool.false_ne_true)]
    rw [hbm]

/-- C1 (amended): identity resolution uses the Levenshtein-ratio formula
`1 - distance / max-length` over the lowercased strings; with no document
at the canonical path it accepts the highest-scoring cache candidate at or
above the 0.80 threshold, falls back to the canonical path when no
candidate reaches it, renames a matched file with a different name to the
canonical one and keeps the old path when the rename fails.  A stored
"Dune" does not match "Dune Messiah" (similarity 1/3) — and, contrary to
the original claim, a stored "We Are Legion" does not match "We Are Legion
(We Are Bob)" either (similarity 1/2 < 0.80; see the counterexample). -/
theorem findExistingFile_spec :
    (∀ str1 str2 : String,
      toLowerStr str1 ≠ toLowerStr str2 →
      (toLowerStr str1).data ≠ [] → (toLowerStr str2).data ≠ [] →
      calculateSimilarity str1 str2 =
        1 - (levDistance (toLowerStr str1).data (toLowerStr str2).data : ℚ) /
            (Nat.max (toLowerStr str1).data.length (toLowerStr str2).data.length : ℚ)) ∧
    (∀ pp bt cache ok, findExistingFile true pp bt cache ok = pp) ∧
    (∀ pp bt cache ok,
      (∀ e ∈ cache, entrySim (normalizeBookTitleSync bt) e < similarityThreshold) →
      findExistingFile false pp bt cache ok = pp) ∧
    (∀ pp bt cache ok path s,
      bestFuzzyMatch (normalizeBookTitleSync bt) cache = some (path, s) →
        similarityThreshold ≤ s ∧
        (∃ e ∈ cache, path = e.filePath ∧ s = entrySim (normalizeBookTitleSync bt) e) ∧
        (∀ e ∈ cache, entrySim (normalizeBookTitleSync bt) e ≤ s) ∧
        findExistingFile false pp bt cache ok =
          (if path ≠ pp then (if ok then pp else path) else path)) ∧
    calculateSimilarity "Dune Messiah" "Dune" = 1 / 3 := by
  refine ⟨?_, ?_, ?_, ?_, ?_⟩
  · intro str1 str2 hne h1 h2
    exact calculateSimilarity_eval str1 str2 _ _ hne
      (fun h => h1 (List.length_eq_zero.mp h)) (fun h => h2 (List.length_eq_zero.mp h)) rfl rfl
  · intro pp bt cache ok
    simp [findExistingFile]
  · intro pp bt cache ok hall
    have hbm : bestFuzzyMatch (normalizeBookTitleSync bt) cache = none :=
      (fuzzyFold_none_iff _ cache none).mpr ⟨rfl, hall⟩
    simp only [findExistingFile, if_neg (Bool.false_ne_true)]
    rw [hbm]
  · intro pp bt cache ok path s hbm
    have hsome := fuzzyFold_some _ cache none path s hbm
    have hmax := fuzzyFold_max _ cache none path s hbm
    rcases hsome with h | ⟨e, he, hp, hs, hθ⟩
    · cases h
    · refine ⟨hθ, ⟨e, he, hp, hs⟩, ?_, ?_⟩
      · intro x hx
        rcases hmax.2 x hx with hlt | hle
        · exact le_trans (le_of_lt hlt) hθ
        · exact hle
      · simp only [findExistingFile, if_neg (Bool.false_ne_true)]
        rw [hbm]
  · rw [calculateSimilarity_eval _ _ 8 12 (by decide) (by decide) (by decide)
      (by decide) (by decide)]
    norm_num

/-- Witness for `findExistingFile_spec`: a stored "Dune" title is below
threshold against "Dune Messiah" and the canonical path wins; a stored
near-identical title (one character dropped, similarity 25/26 ≥ 0.80) is
matched and renamed to the canonical path. -/
theorem findExistingFile_spec_witness :
    findExistingFile false "Books/Dune Messiah.md" "Dune Messiah"
        [⟨"Dune", "Books/Dune.md"⟩] true = "Books/Dune Messiah.md" ∧
    findExistingFile false "Books/We Are Legion (We Are Bob).md"
        "We Are Legion (We Are Bob)"
        [⟨"We Are Legion (We Are Bob", "Books/old.md"⟩] true
      = "Books/We Are Legion (We Are Bob).md" := by
  have hsimD : calculateSimilarity "Dune Messiah" "Dune" = 1 / 3 := by
    rw [calculateSimilarity_eval _ _ 8 12 (by decide) (by decide) (by decide)
      (by decide) (by decide)]
    norm_num
  have hsimW : calculateSimilarity "We Are Legion (We Are Bob)"
      "We Are Legion (We Are Bob" = 25 / 26 := by
    rw [calculateSimilarity_eval _ _ 1 26 (by decide) (by decide) (by decide)
      (by decide) (by decide)]
    norm_num
  constructor
  · refine findExistingFile_spec.2.2.1 "Books/Dune Messiah.md" "Dune Messiah"
      [⟨"Dune", "Books/Dune.md"⟩] true ?_
    intro e he
    simp only [List.mem_singleton] at he
    subst he
    have hnorm : normalizeBookTitleSync "Dune Messiah" = "Dune Messiah" := by decide
    simp only [entrySim, hnorm]
    rw [hsimD, similarityThreshold]
    norm_num
  · have hnorm : normalizeBookTitleSync "We Are Legion (We Are Bob)"
        = "We Are Legion (We Are Bob)" := by decide
    have hθ : similarityThreshold ≤ (25 / 26 : ℚ) := by
      rw [similarityThreshold]; norm_num
    have hbm : bestFuzzyMatch (normalizeBookTitleSync "We Are Legion (We Are Bob)")
        [⟨"We Are Legion (We Are Bob", "Books/old.md"⟩] = some ("Books/old.md", 25 / 26) := by
      simp only [bestFuzzyMatch, List.foldl_cons, List.foldl_nil, fuzzyStep, hnorm]
      rw [hsimW, if_pos hθ]
    have h := findExistingFile_spec.2.2.2.1 "Books/We Are Legion (We Are Bob).md"
      "We Are Legion (We Are Bob)"
      [⟨"We Are Legion (We Are Bob", "Books/old.md"⟩] true "Books/old.md" (25 / 26) hbm
    rw [h.2.2.2]
    simp

/-! ### C9 — parser/grammar correspondence -/

lemma expectSep_eq_some {sep : Char} (hsep : sep.isDigit = false)
    (l a r : List Char) :
    expectSep sep l = some (a, r) ↔
      a.all Char.isDigit = true ∧ a ≠ [] ∧ l = a ++ sep :: r := by
  constructor
  · intro h
    unfold expectSep at h
    split at h
    · rename_i c r' heq
      split at h
      · rename_i hcond
        obtain ⟨hne, rfl⟩ := hcond
        obtain ⟨rfl, rfl⟩ : l.takeWhile Char.isDigit = a ∧ r' = r := by
          cases h; exact ⟨rfl, rfl⟩
        refine ⟨all_takeWhile _ l, hne, ?_⟩
        conv_lhs => rw [← List.takeWhile_append_dropWhile (p := Char.isDigit) (l := l)]
        rw [heq]
      · cases h
    · cases h
  · rintro ⟨hall, hne, rfl⟩
    have hx : ∀ x ∈ a, Char.isDigit x = true := List.all_eq_true.mp hall
    have hy : ∀ y, (sep :: r).head? = some y → Char.isDigit y = false := by
      intro y hy
      cases hy
      exact hsep
    have h1 := takeWhile_append_of Char.isDigit a (sep :: r) hx hy
    have h2 := dropWhile_append_of Char.isDigit a (sep :: r) hx hy
    unfold expectSep
    rw [h2]
    simp [h1, hne]

lemma parsePct_eq_some (l : List Char) (q : ℚ) :
    parsePct l = some q ↔
      (∃ e, e.all Char.isDigit = true ∧ e ≠ [] ∧ l = e ++ ['%'] ∧
        q = (digitsToNat e : ℚ)) ∨
      (∃ e g, e.all Char.isDigit = true ∧ e ≠ [] ∧
        g.all Char.isDigit = true ∧ g ≠ [] ∧
        l = e ++ '.' :: (g ++ ['%']) ∧
        q = decimalRat (digitsToNat e) (digitsToNat g) g.length) := by
  constructor
  · intro h
    unfold parsePct at h
    split at h
    · -- dropWhile l = ['%']
      rename_i heq
      split at h
      · cases h
      · rename_i hne
        left
        refine ⟨l.takeWhile Char.isDigit, all_takeWhile _ l, hne, ?_, by cases h; rfl⟩
        conv_lhs => rw [← List.takeWhile_append_dropWhile (p := Char.isDigit) (l := l)]
        rw [heq]
    · -- dropWhile l = '.' :: r
      rename_i r heq
      split at h
      · cases h
      · rename_i hne
        split at h
        · -- dropWhile r = ['%']
          rename_i heq2
          split at h
          · cases h
          · rename_i hne2
            right
            refine ⟨l.takeWhile Char.isDigit, r.takeWhile Char.isDigit,
              all_takeWhile _ l, hne, all_takeWhile _ r, hne2, ?_, by cases h; rfl⟩
            conv_lhs => rw [← List.takeWhile_append_dropWhile (p := Char.isDigit) (l := l)]
            rw [heq]
            congr 1
            rw [List.cons_inj_right]
            conv_lhs => rw [← List.takeWhile_append_dropWhile (p := Char.isDigit) (l := r)]
            rw [heq2]
        · cases h
    · cases h
  · rintro (⟨e, hall, hne, rfl, rfl⟩ | ⟨e, g, halle, hnee, hallg, hneg, rfl, rfl⟩)
    · have hx : ∀ x ∈ e, Char.isDigit x = true := List.all_eq_true.mp hall
      have hy : ∀ y, (['%'] : List Char).head? = some y → Char.isDigit y = false := by
        intro y hy
        cases hy
        decide
      have h1 := takeWhile_append_of Char.isDigit e ['%'] hx hy
      have h2 := dropWhile_append_of Char.isDigit e ['%'] hx hy
      unfold parsePct
      rw [h2]
      simp [h1, hne]
    · have hx : ∀ x ∈ e, Char.isDigit x = true := List.all_eq_true.mp halle
      have hy : ∀ y, ('.' :: (g ++ ['%'])).head? = some y → Char.isDigit y = false := by
        intro y hy
        cases hy
        decide
      have h1 := takeWhile_append_of Char.isDigit e ('.' :: (g ++ ['%'])) hx hy
      have h2 := dropWhile_append_of Char.isDigit e ('.' :: (g ++ ['%'])) hx hy
      have hgx : ∀ x ∈ g, Char.isDigit x = true := List.all_eq_true.mp hallg
      have hgy : ∀ y, (['%'] : List Char).head? = some y → Char.isDigit y = false := by
        intro y hy
        cases hy
        decide
      have h3 := takeWhile_append_of Char.isDigit g ['%'] hgx hgy
      have h4 := dropWhile_append_of Char.isDigit g ['%'] hgx hgy
      unfold parsePct
      rw [h2]
      simp [h1, h3, h4, hnee, hneg]

/-- C9: the position decoder succeeds exactly on trimmed content matching
the anchored five-field grammar `timestamp*chapter@marker#position:pct%`,
returning the integer timestamp, the integer chapter and the decimal
percentage as given; `"1700000000000*12@0#500:33.3%"` decodes to timestamp
1700000000000, chapter 12 and progress 33.3, and a non-matching string
yields no result (the decoder is a total function into `Option`, so
failure is silent rather than an error). -/
theorem parseProgressFile_spec :
    (∀ s : String,
      (parseProgressFile s).isSome ↔ matchesProgressGrammar (jsTrim s.data)) ∧
    parseProgressFile "1700000000000*12@0#500:33.3%"
      = some ⟨1700000000000, 12, decimalRat 33 3 1⟩ ∧
    decimalRat 33 3 1 = 333 / 10 := by
  refine ⟨?_, by rfl, by unfold decimalRat; norm_num⟩
  intro s
  constructor
  · intro h
    obtain ⟨v, hv⟩ := Option.isSome_iff_exists.mp h
    unfold parseProgressFile at hv
    split at hv
    case _ a r2 h1 =>
      split at hv
      case _ b r4 h2 =>
        split at hv
        case _ c r6 h3 =>
          split at hv
          case _ d r8 h4 =>
            split at hv
            case _ q h5 =>
              obtain ⟨ha1, ha2, ha3⟩ := (expectSep_eq_some (by decide) _ _ _).mp h1
              obtain ⟨hb1, hb2, hb3⟩ := (expectSep_eq_some (by decide) _ _ _).mp h2
              obtain ⟨hc1, hc2, hc3⟩ := (expectSep_eq_some (by decide) _ _ _).mp h3
              obtain ⟨hd1, hd2, hd3⟩ := (expectSep_eq_some (by decide) _ _ _).mp h4
              rcases (parsePct_eq_some _ _).mp h5 with
                ⟨e, he1, he2, he3, -⟩ | ⟨e, g, he1, he2, hg1, hg2, he3, -⟩
              · refine ⟨a, b, c, d, e, [], ⟨ha1, ha2⟩, ⟨hb1, hb2⟩, ⟨hc1, hc2⟩,
                  ⟨hd1, hd2⟩, ⟨he1, he2⟩, Or.inl rfl, ?_⟩
                rw [ha3, hb3, hc3, hd3, he3]
                simp
              · refine ⟨a, b, c, d, e, '.' :: g, ⟨ha1, ha2⟩, ⟨hb1, hb2⟩, ⟨hc1, hc2⟩,
                  ⟨hd1, hd2⟩, ⟨he1, he2⟩, Or.inr ⟨g, rfl, hg1, hg2⟩, ?_⟩
                rw [ha3, hb3, hc3, hd3, he3]
                simp
            case _ => cases hv
          case _ => cases hv
        case _ => cases hv
      case _ => cases hv
    case _ => cases hv
  · rintro ⟨a, b, c, d, e, f, ⟨ha1, ha2⟩, ⟨hb1, hb2⟩, ⟨hc1, hc2⟩, ⟨hd1, hd2⟩,
      ⟨he1, he2⟩, hf, hl⟩
    have h1 : expectSep '*' (jsTrim s.data)
        = some (a, b ++ '@' :: (c ++ '#' :: (d ++ ':' :: (e ++ f ++ ['%'])))) :=
      (expectSep_eq_some (by decide) _ _ _).mpr ⟨ha1, ha2, hl⟩
    have h2 : expectSep '@' (b ++ '@' :: (c ++ '#' :: (d ++ ':' :: (e ++ f ++ ['%']))))
        = some (b, c ++ '#' :: (d ++ ':' :: (e ++ f ++ ['%']))) :=
      (expectSep_eq_some (by decide) _ _ _).mpr ⟨hb1, hb2, rfl⟩
    have h3 : expectSep '#' (c ++ '#' :: (d ++ ':' :: (e ++ f ++ ['%'])))
        = some (c, d ++ ':' :: (e ++ f ++ ['%'])) :=
      (expectSep_eq_some (by decide) _ _ _).mpr ⟨hc1, hc2, rfl⟩
    have h4 : expectSep ':' (d ++ ':' :: (e ++ f ++ ['%']))
        = some (d, e ++ f ++ ['%']) :=
      (expectSep_eq_some (by decide) _ _ _).mpr ⟨hd1, hd2, rfl⟩
    have h5 : ∃ q, parsePct (e ++ f ++ ['%']) = some q := by
      rcases hf with rfl | ⟨g, rfl, hg1, hg2⟩
      · exact ⟨_, (parsePct_eq_some _ _).mpr (Or.inl ⟨e, he1, he2, by simp, rfl⟩)⟩
      · exact ⟨_, (parsePct_eq_some _ _).mpr
          (Or.inr ⟨e, g, he1, he2, hg1, hg2, by simp, rfl⟩)⟩
    obtain ⟨q, h5⟩ := h5
    unfold parseProgressFile
    simp only [h1, h2, h3, h4, h5, Option.isSome_some]

/-- Witness for `parseProgressFile_spec`: a garbage string fails the
grammar and decodes to nothing. -/
theorem parseProgressFile_spec_witness :
    parseProgressFile "not a position file" = none ∧
    ¬ matchesProgressGrammar (jsTrim "not a position file".data) := by
  refine ⟨by rfl, fun h => ?_⟩
  have h2 := (parseProgressFile_spec.1 "not a position file").mpr h
  rw [show parseProgressFile "not a position file" = none from rfl] at h2
  cases h2

/-! ### C2 — decoder/stream correspondence -/

lemma dropWhile_append_left {α : Type} (p : α → Bool) (xs ys : List α)
    (h : xs.dropWhile p ≠ []) : (xs ++ ys).dropWhile p = xs.dropWhile p ++ ys := by
  induction xs with
  | nil => simp at h
  | cons x t ih =>
    by_cases hx : p x
    · simp only [List.dropWhile_cons, hx, if_true] at h ⊢
      simp only [List.cons_append, List.dropWhile_cons, hx, if_true]
      exact ih h
    · simp [List.dropWhile_cons, hx]

lemma head_dropWhile_false {α : Type} (p : α → Bool) (l : List α) (y : α) (t : List α)
    (h : l.dropWhile p = y :: t) : p y = false := by
  induction l with
  | nil => cases h
  | cons x l ih =>
    by_cases hx : p x
    · simp only [List.dropWhile_cons, hx, if_true] at h
      exact ih h
    · simp only [List.dropWhile_cons, hx, if_false] at h
      cases h
      simp only [Bool.not_eq_true] at hx
      exact hx

lemma parseBlocks_block_eq (author f1 f2 f3 f4 f5 f6 f7 f8 f9 f10 : String)
    (tail : List String) :
    parseBlocks author
        ("#" :: f1 :: f2 :: f3 :: f4 :: f5 :: f6 :: f7 :: f8 :: f9 :: f10 :: tail) =
      (let p := readPayload (tail.dropWhile (· == ""))
       let after := skipSentinels p.2.2
       if p.1 ≠ "" then
         mkHighlight author f1 f2 f3 f5 f7 f8 f9 f10 p.2.1 p.1 :: parseBlocks author after
       else parseBlocks author after) := by
  rw [parseBlocks]
  rw [if_pos rfl]

lemma parseBlocks_cons_block (author : String) (b : RawBlock) (rest : List String)
    (hwf : b.WF) (hrest : rest = [] ∨ ∃ r', rest = "#" :: r') :
    parseBlocks author (b.lines ++ rest) =
      (match b.record author with
        | some h => h :: parseBlocks author rest
        | none => parseBlocks author rest) := by
  unfold RawBlock.WF RawBlock.wfB at hwf
  simp only [Bool.and_eq_true] at hwf
  obtain ⟨⟨hblanks, hsent⟩, hpay⟩ := hwf
  have hblanks' : ∀ x ∈ b.blanks, (x == "") = true := List.all_eq_true.mp hblanks
  have hsent' : ∀ x ∈ b.sentinels, isSentinelLine x = true := List.all_eq_true.mp hsent
  have hskip : ∀ sent : List String, (∀ x ∈ sent, isSentinelLine x = true) →
      skipSentinels (sent ++ rest) = rest := by
    intro sent hs
    rw [skipSentinels, dropWhile_append_all _ _ _ hs]
    rcases hrest with rfl | ⟨r', rfl⟩
    · rfl
    · simp [List.dropWhile_cons, isSentinelLine]
  have hlines : b.lines ++ rest
      = "#" :: b.f1 :: b.f2 :: b.f3 :: b.f4 :: b.f5 :: b.f6 :: b.f7 :: b.f8 :: b.f9 ::
          b.f10 :: (b.blanks ++ (b.payload ++ (b.sentinels ++ rest))) := by
    simp [RawBlock.lines, List.append_assoc]
  rw [hlines, parseBlocks_block_eq]
  simp only []
  rw [dropWhile_append_all _ _ _ hblanks']
  rcases hp : b.payload with - | ⟨t1, - | ⟨t2, - | ⟨t3, tl⟩⟩⟩ <;> rw [hp] at hpay
  · -- empty payload: after the blank run the parser sees a "0" and reads no text
    simp only [Bool.not_eq_true', List.isEmpty_eq_false] at hpay
    obtain ⟨s0, s'', hs'⟩ := List.exists_cons_of_ne_nil hpay
    have hs0false : (s0 == "") = false :=
      head_dropWhile_false (· == "") b.sentinels s0 s'' hs'
    have hs0mem : s0 ∈ b.sentinels :=
      mem_dropWhile (· == "") b.sentinels s0 (by rw [hs']; exact List.mem_cons_self ..)
    have hs0 : s0 = "0" := by
      have h := hsent' s0 hs0mem
      simp only [isSentinelLine, Bool.or_eq_true, beq_iff_eq] at h
      rcases h with h | h
      · exact h
      · rw [h] at hs0false; simp at hs0false
    have hsub : ∀ x ∈ s0 :: s'', isSentinelLine x = true := by
      intro x hx
      refine hsent' x (mem_dropWhile (· == "") b.sentinels x ?_)
      rw [hs']; exact hx
    have hdrop : List.dropWhile (· == "") ([] ++ (b.sentinels ++ rest))
        = s0 :: (s'' ++ rest) := by
      rw [List.nil_append, dropWhile_append_left _ _ _ (by rw [hs']; simp), hs']
      rfl
    rw [hdrop]
    have hread : readPayload (s0 :: (s'' ++ rest)) = ("", "", s0 :: (s'' ++ rest)) := by
      simp [readPayload, hs0]
    rw [hread]
    simp only [ne_eq, not_true_eq_false, if_false, RawBlock.record, hp]
    have : skipSentinels (s0 :: (s'' ++ rest)) = rest := by
      have := hskip (s0 :: s'') hsub
      simpa using this
    rw [this]
  · -- one-line payload: the text line, then sentinels stop the lookahead
    simp only [Bool.and_eq_true, bne_iff_ne, Bool.not_eq_true', List.isEmpty_eq_false]
      at hpay
    obtain ⟨⟨ht1zero, ht1blank⟩, hsnn⟩ := hpay
    obtain ⟨s0, s', hs⟩ := List.exists_cons_of_ne_nil hsnn
    have hs0sent : isSentinelLine s0 = true := hsent' s0 (by rw [hs]; exact List.mem_cons_self ..)
    have hdrop : List.dropWhile (· == "") ([t1] ++ (b.sentinels ++ rest))
        = t1 :: (b.sentinels ++ rest) := by
      simp [List.dropWhile_cons, ht1blank]
    rw [hdrop]
    have hread : readPayload (t1 :: (b.sentinels ++ rest))
        = (processText t1, "", b.sentinels ++ rest) := by
      rw [hs]
      have hcond : ¬ (s0 ≠ "0" ∧ s0 ≠ "") := by
        simp only [isSentinelLine, Bool.or_eq_true, beq_iff_eq] at hs0sent
        rcases hs0sent with h | h <;> simp [h]
      simp [readPayload, ht1zero, hcond]
    rw [hread]
    rw [hskip _ hsent']
    by_cases htext : processText t1 = ""
    · simp [htext, RawBlock.record, hp]
    · simp [htext, RawBlock.record, hp]
  · -- two-line payload: note then text
    simp only [Bool.and_eq_true, bne_iff_ne] at hpay
    obtain ⟨⟨⟨ht1zero, ht1blank⟩, ht2zero⟩, ht2blank⟩ := hpay
    have hdrop : List.dropWhile (· == "") ([t1, t2] ++ (b.sentinels ++ rest))
        = t1 :: t2 :: (b.sentinels ++ rest) := by
      simp [List.dropWhile_cons, ht1blank]
    rw [hdrop]
    have hread : readPayload (t1 :: t2 :: (b.sentinels ++ rest))
        = (processText t2, processText t1, b.sentinels ++ rest) := by
      simp [readPayload, ht1zero, ht2zero, ht2blank]
    rw [hread]
    rw [hskip _ hsent']
    by_cases htext : processText t2 = ""
    · simp [htext, RawBlock.record, hp]
    · simp [htext, RawBlock.record, hp]
  · simp at hpay

lemma parseBlocks_blocksLines (author : String) :
    ∀ bs : List RawBlock, (∀ b ∈ bs, b.WF) →
      parseBlocks author (blocksLines bs) = bs.filterMap (RawBlock.record author) := by
  intro bs
  induction bs with
  | nil =>
    intro
    rw [blocksLines, parseBlocks]
    rfl
  | cons b bs ih =>
    intro h
    have hrest : blocksLines bs = [] ∨ ∃ r', blocksLines bs = "#" :: r' := by
      cases bs with
      | nil => exact Or.inl rfl
      | cons b2 t => exact Or.inr ⟨_, rfl⟩
    rw [blocksLines, parseBlocks_cons_block author b _ (h b (List.mem_cons_self ..)) hrest,
      ih (fun x hx => h x (List.mem_cons_of_mem _ hx))]
    cases hrec : b.record author <;> simp [List.filterMap_cons, hrec]

/-- C2: on any stream made of a `#`-free preamble followed by well-formed
blocks, the decoder skips the preamble, resolves each block's payload by
the two-line lookahead (two non-sentinel lines: first is the user note,
second the highlight text; a single line: the highlight text, no note),
replaces `<BR>` by line breaks and trims both texts, and emits exactly the
records whose trimmed highlight text is non-empty, in file order. -/
theorem parseAnnotationLines_spec (author : String) (preamble : List String)
    (bs : List RawBlock) (hpre : ∀ x ∈ preamble, x ≠ "#")
    (hwf : ∀ b ∈ bs, b.WF) :
    parseAnnotationLines author (preamble ++ blocksLines bs)
      = bs.filterMap (RawBlock.record author) := by
  unfold parseAnnotationLines skipPreamble
  rw [dropWhile_append_all _ _ _ (fun x hx => by simpa [bne_iff_ne] using hpre x hx)]
  have hstop : (blocksLines bs).dropWhile (fun l => l != "#") = blocksLines bs := by
    cases bs with
    | nil => rfl
    | cons b t =>
      rw [blocksLines, RawBlock.lines]
      simp [List.cons_append, List.dropWhile_cons]
  rw [hstop]
  exact parseBlocks_blocksLines author bs hwf

/-- Witness for `parseAnnotationLines_spec`: a preamble plus two blocks —
one with a note/text payload (with a `<BR>`), one whose only payload line
trims to empty and is therefore dropped. -/
theorem parseAnnotationLines_spec_witness :
    parseAnnotationLines "Bob"
        (["header junk", ""] ++ blocksLines
          [⟨"1", "Title.epub", "path/a", "path/a", "2", "0", "30", "5", "123", "456",
            [""], ["my note", "high<BR>light"], ["0", "0", "0"]⟩,
           ⟨"2", "T", "p", "p", "0", "0", "7", "1", "9", "0",
            [], ["<BR>"], ["0"]⟩])
      = [{ id := 1, book := "Title", filename := "path/a", chapter := 2, position := 30,
           highlightLength := 5, highlightColor := 123, timestamp := 456,
           note := "my note", text := "high\nlight" }] := by
  rw [parseAnnotationLines_spec "Bob" _ _ (by decide) (by decide)]
  decide

/-! ### C7 — merge-rule theorems -/

lemma jsOrStr_eq_ite (a b : Option String) :
    jsOrStr a b = if truthyStr a then a else b := by
  rcases a with - | s
  · rfl
  · by_cases h : s = "" <;> simp [jsOrStr, truthyStr, h]

lemma jsOrNum_eq_ite (a b : Option Int) :
    jsOrNum a b = if truthyNum a then a else b := by
  rcases a with - | n
  · rfl
  · by_cases h : n = 0 <;> simp [jsOrNum, truthyNum, h]

lemma genreStep_pos {acc : List String} {g : String}
    (h : (acc.any fun g2 => toLowerStr g2 = toLowerStr g) = true) :
    genreStep acc g = acc := by
  unfold genreStep
  rw [if_pos h]

lemma genreStep_neg {acc : List String} {g : String}
    (h : ¬ (acc.any fun g2 => toLowerStr g2 = toLowerStr g) = true) :
    genreStep acc g = acc ++ [g] := by
  unfold genreStep
  rw [if_neg h]

lemma genreFold_prefix (os : List String) :
    ∀ acc : List String, ∃ extra, os.foldl genreStep acc = acc ++ extra := by
  induction os with
  | nil => exact fun acc => ⟨[], by simp⟩
  | cons g os ih =>
    intro acc
    simp only [List.foldl_cons]
    by_cases h : (acc.any fun g2 => toLowerStr g2 = toLowerStr g) = true
    · obtain ⟨extra, hx⟩ := ih acc
      rw [genreStep_pos h]
      exact ⟨extra, hx⟩
    · obtain ⟨extra, hx⟩ := ih (acc ++ [g])
      rw [genreStep_neg h]
      exact ⟨[g] ++ extra, by rw [hx, List.append_assoc]⟩

lemma genreFold_sub (os : List String) :
    ∀ acc : List String, ∀ g ∈ os.foldl genreStep acc, g ∈ acc ∨ g ∈ os := by
  induction os with
  | nil => simp
  | cons x os ih =>
    intro acc g hg
    simp only [List.foldl_cons] at hg
    rcases ih _ g hg with h | h
    · by_cases hx : (acc.any fun g2 => toLowerStr g2 = toLowerStr x) = true
      · rw [genreStep_pos hx] at h
        exact Or.inl h
      · rw [genreStep_neg hx] at h
        rcases List.mem_append.mp h with h | h
        · exact Or.inl h
        · simp only [List.mem_singleton] at h
          exact Or.inr (h ▸ List.mem_cons_self ..)
    · exact Or.inr (List.mem_cons_of_mem _ h)

lemma genreFold_covers (os : List String) :
    ∀ acc : List String, ∀ g ∈ os,
      ∃ g2 ∈ os.foldl genreStep acc, toLowerStr g2 = toLowerStr g := by
  induction os with
  | nil => simp
  | cons x os ih =>
    intro acc g hg
    rcases List.mem_cons.mp hg with rfl | hg'
    · simp only [List.foldl_cons]
      by_cases h : (acc.any fun g2 => toLowerStr g2 = toLowerStr g) = true
      · obtain ⟨g2, hg2, hl⟩ := List.any_eq_true.mp h
        obtain ⟨extra, hx⟩ := genreFold_prefix os (genreStep acc g)
        refine ⟨g2, ?_, by simpa using hl⟩
        rw [hx, genreStep_pos h]
        exact List.mem_append_left _ hg2
      · obtain ⟨extra, hx⟩ := genreFold_prefix os (genreStep acc g)
        refine ⟨g, ?_, rfl⟩
        rw [hx, genreStep_neg h]
        exact List.mem_append_left _ (List.mem_append_right _ (List.mem_singleton.mpr rfl))
    · simp only [List.foldl_cons]
      exact ih _ g hg'

lemma genreFold_pairwise (os : List String) :
    ∀ acc : List String,
      acc.Pairwise (fun g1 g2 => toLowerStr g1 ≠ toLowerStr g2) →
      (os.foldl genreStep acc).Pairwise (fun g1 g2 => toLowerStr g1 ≠ toLowerStr g2) := by
  induction os with
  | nil => exact fun acc h => h
  | cons x os ih =>
    intro acc hacc
    simp only [List.foldl_cons]
    refine ih _ ?_
    by_cases h : (acc.any fun g2 => toLowerStr g2 = toLowerStr x) = true
    · rw [genreStep_pos h]
      exact hacc
    · rw [genreStep_neg h]
      rw [List.pairwise_append]
      refine ⟨hacc, by simp, ?_⟩
      intro a ha b hb
      simp only [List.mem_singleton] at hb
      subst hb
      intro hab
      exact h (List.any_eq_true.mpr ⟨a, ha, by simp [hab]⟩)

/-- C7: the merged record takes the cover from Open Library (A) falling
back to Google Books (B); description, title, author, published date,
publisher, page count and language from B falling back to A; the genres as
the B-first union of both lists with case-insensitive de-duplication of
A's entries against what is already present; and the series exclusively
from A.  "Present" means JS-truthy (non-null, non-empty, non-zero).  The
spec's example instance — A returning only a cover and series, B returning
only a description and publisher — merges to exactly those four fields,
nothing lost or invented. -/
theorem fetchBookInfo_spec :
    (∀ (ol : OpenLibraryResult) (gb : GoogleBooksResult),
      (fetchBookInfo ol gb).coverUrl
          = (if truthyStr ol.coverUrl then ol.coverUrl else gb.coverUrl) ∧
      (fetchBookInfo ol gb).description
          = (if truthyStr gb.description then gb.description else ol.description) ∧
      (fetchBookInfo ol gb).title
          = (if truthyStr gb.title then gb.title else ol.title) ∧
      (fetchBookInfo ol gb).author
          = (if truthyStr gb.author then gb.author else ol.author) ∧
      (fetchBookInfo ol gb).publishedDate
          = (if truthyStr gb.publishedDate then gb.publishedDate else ol.publishedDate) ∧
      (fetchBookInfo ol gb).publisher
          = (if truthyStr gb.publisher then gb.publisher else ol.publisher) ∧
      (fetchBookInfo ol gb).pageCount
          = (if truthyNum gb.pageCount then gb.pageCount else ol.pageCount) ∧
      (fetchBookInfo ol gb).language
          = (if truthyStr gb.language then gb.language else ol.language) ∧
      (fetchBookInfo ol gb).series = ol.series) ∧
    (∀ (ol : OpenLibraryResult) (gb : GoogleBooksResult),
      (∃ extra, mergeGenres gb.genres ol.genres = gb.genres.getD [] ++ extra) ∧
      (∀ g ∈ mergeGenres gb.genres ol.genres,
        g ∈ gb.genres.getD [] ∨ g ∈ ol.genres.getD []) ∧
      (∀ g ∈ ol.genres.getD [],
        ∃ g2 ∈ mergeGenres gb.genres ol.genres, toLowerStr g2 = toLowerStr g) ∧
      (fetchBookInfo ol gb).genres
        = (if (mergeGenres gb.genres ol.genres).length > 0
            then some (mergeGenres gb.genres ol.genres) else none)) ∧
    (∀ (ol : OpenLibraryResult) (gb : GoogleBooksResult),
      (gb.genres.getD []).Pairwise (fun g1 g2 => toLowerStr g1 ≠ toLowerStr g2) →
      (mergeGenres gb.genres ol.genres).Pairwise
        (fun g1 g2 => toLowerStr g1 ≠ toLowerStr g2)) ∧
    fetchBookInfo
        { coverUrl := some "http://a/cover.jpg", series := some "Bobiverse" }
        { description := some "A good book", publisher := some "Pub House" }
      = { coverUrl := some "http://a/cover.jpg", series := some "Bobiverse",
          description := some "A good book", publisher := some "Pub House",
          source := some "googlebooks" } := by
  have hbase : ∀ gb : GoogleBooksResult,
      (match gb.genres with | some gs => gs | none => []) = gb.genres.getD [] := by
    intro gb
    rcases gb.genres with - | gs <;> rfl
  refine ⟨?_, ?_, ?_, by decide⟩
  · intro ol gb
    exact ⟨jsOrStr_eq_ite _ _, jsOrStr_eq_ite _ _, jsOrStr_eq_ite _ _,
      jsOrStr_eq_ite _ _, jsOrStr_eq_ite _ _, jsOrStr_eq_ite _ _,
      jsOrNum_eq_ite _ _, jsOrStr_eq_ite _ _, rfl⟩
  · intro ol gb
    refine ⟨?_, ?_, ?_, rfl⟩
    · unfold mergeGenres
      rcases hos : ol.genres with - | os
      · exact ⟨[], by rw [hbase, List.append_nil]⟩
      · obtain ⟨extra, hx⟩ := genreFold_prefix os (gb.genres.getD [])
        exact ⟨extra, by rw [hbase]; exact hx⟩
    · intro g hg
      unfold mergeGenres at hg
      rcases hos : ol.genres with - | os <;> rw [hos] at hg
      · simp only [] at hg
        rw [hbase] at hg
        simp only [hos, Option.getD_none]
        exact Or.inl hg
      · simp only [] at hg
        rw [hbase] at hg
        rcases genreFold_sub os _ g hg with h | h
        · exact Or.inl h
        · exact Or.inr (by simpa using h)
    · intro g hg
      unfold mergeGenres
      rcases hos : ol.genres with - | os
      · rw [hos] at hg
        simp at hg
      · rw [hos] at hg
        simp only [Option.getD_some] at hg
        exact genreFold_covers os _ g hg
  · intro ol gb hp
    unfold mergeGenres
    rcases hos : ol.genres with - | os
    · rw [hbase]
      exact hp
    · refine genreFold_pairwise os _ ?_
      rw [hbase]
      exact hp

/-- Witness for `fetchBookInfo_spec`: a concrete duplicate-free Google
Books list stays duplicate-free (case-insensitively) after merging an
overlapping Open Library list. -/
theorem fetchBookInfo_spec_witness :
    (mergeGenres (some ["Science Fiction", "Adventure"])
        (some ["science fiction", "Horror"])).Pairwise
      (fun g1 g2 => toLowerStr g1 ≠ toLowerStr g2) := by
  refine fetchBookInfo_spec.2.2.1
    { genres := some ["science fiction", "Horror"] }
    { genres := some ["Science Fiction", "Adventure"] } ?_
  simp only [Option.getD_some]
  decide

/-! ### C4/C5 — the skip and deletion decisions of `processBook` -/

lemma highlightsUnchanged_iff (ex : ExistingBookData) (hs : List MRHighlight) :
    highlightsUnchanged ex hs = true ↔
      ((∃ h, ex.highlightsHash = some h ∧ h ≠ "" ∧ h = computeHighlightsHash hs) ∨
        ((ex.highlightsHash = none ∨ ex.highlightsHash = some "") ∧
          ex.highlightsCount = (hs.length : Int))) := by
  unfold highlightsUnchanged
  rcases hh : ex.highlightsHash with - | h
  · simp [beq_iff_eq]
  · by_cases hempty : h = ""
    · subst hempty
      simp [beq_iff_eq]
    · simp only [hempty, if_false, beq_iff_eq]
      constructor
      · intro he
        exact Or.inl ⟨h, rfl, hempty, he⟩
      · rintro (⟨h2, hEq, -, hh2⟩ | ⟨hbad | hbad, -⟩)
        · cases hEq
          exact hh2
        · cases hbad
        · cases hbad
          exact absurd rfl hempty

lemma decision_nonempty (bd : BookData) (ex : ExistingBookData) (track : Bool)
    (cached : Option CachedBookInfo) (hne : bd.highlights.isEmpty = false) :
    processBookDecision bd (some ex) track cached = skipCheck bd ex cached := by
  unfold processBookDecision
  simp [hne]

lemma decision_updated_of_lastRead_ne (bd : BookData) (ex : ExistingBookData)
    (track : Bool) (cached : Option CachedBookInfo)
    (hne : bd.highlights.isEmpty = false)
    (h : ex.lastRead ≠ newLastRead bd.lastReadTimestamp) :
    processBookDecision bd (some ex) track cached = .updated := by
  rw [decision_nonempty bd ex track cached hne]
  unfold skipCheck
  rw [if_neg]
  rintro ⟨-, -, h3, -⟩
  exact h h3

/-- C4: for a book with at least one highlight whose target document
exists, `processBook` skips exactly when the stored hash matches the
current highlight set's hash (falling back to a highlight-count comparison
when no non-empty hash is stored), the stored progress and last-read date
match, and the cached metadata entry has all six extended fields present
as keys; in every other case it updates. -/
theorem processBook_skip_iff (bd : BookData) (ex : ExistingBookData)
    (track : Bool) (cached : Option CachedBookInfo) (hne : bd.highlights ≠ []) :
    (processBookDecision bd (some ex) track cached = .skipped ↔
      ((∃ h, ex.highlightsHash = some h ∧ h ≠ "" ∧ h = computeHighlightsHash bd.highlights) ∨
        ((ex.highlightsHash = none ∨ ex.highlightsHash = some "") ∧
          ex.highlightsCount = (bd.highlights.length : Int))) ∧
      ex.progress = bd.progress ∧
      ex.lastRead = newLastRead bd.lastReadTimestamp ∧
      hasAttemptedFetch cached = true) ∧
    (processBookDecision bd (some ex) track cached = .skipped ∨
      processBookDecision bd (some ex) track cached = .updated) := by
  have hne' : bd.highlights.isEmpty = false := by
    cases h : bd.highlights
    · exact absurd h hne
    · rfl
  rw [decision_nonempty bd ex track cached hne']
  unfold skipCheck
  constructor
  · split
    · rename_i hC
      obtain ⟨h1, h2, h3, h4⟩ := hC
      simp only [true_iff]
      exact ⟨(highlightsUnchanged_iff ex bd.highlights).mp h1, h2, h3, h4⟩
    · rename_i hC
      constructor
      · intro habs
        cases habs
      · rintro ⟨h1, h2, h3, h4⟩
        exact absurd ⟨(highlightsUnchanged_iff ex bd.highlights).mpr h1, h2, h3, h4⟩ hC
  · split
    · exact Or.inl rfl
    · exact Or.inr rfl

/-- Witness for `processBook_skip_iff`: an unchanged legacy document (no
stored hash, matching count, no progress data) with a fully attempted
cache entry is skipped. -/
theorem processBook_skip_iff_witness :
    processBookDecision fixtureBookNoPo
        (some ⟨1, none, none, none, false, false, ""⟩) false (some fixtureCacheFull)
      = .skipped := by
  refine ((processBook_skip_iff fixtureBookNoPo
      ⟨1, none, none, none, false, false, ""⟩ false (some fixtureCacheFull)
      (by decide)).1).mpr ?_
  exact ⟨Or.inr ⟨Or.inl rfl, by decide⟩, by decide, by decide, by decide⟩

lemma skipCheck_not_deleted (bd : BookData) (ex : ExistingBookData)
    (cached : Option CachedBookInfo) :
    skipCheck bd ex cached ≠ .deleted := by
  unfold skipCheck
  split <;> simp

/-- C5: a document is deleted by `processBook` exactly when the book's
current highlight count is zero, a document exists, the
track-books-without-highlights setting is off, and the document has no
user-authored content in its free-form notes section; with tracking on
the document is kept (skipped when it already records count 0, updated to
count 0 otherwise), and with user content and count already 0 it is
skipped untouched. -/
theorem processBook_delete_policy :
    (∀ (bd : BookData) (existing : Option ExistingBookData) (track : Bool)
        (cached : Option CachedBookInfo),
      processBookDecision bd existing track cached = .deleted ↔
        (bd.highlights = [] ∧ track = false ∧
          ∃ ex, existing = some ex ∧ hasUserNotes ex.fullContent = false)) ∧
    (∀ (bd : BookData) (ex : ExistingBookData) (cached : Option CachedBookInfo),
      bd.highlights = [] → ex.highlightsHash = none →
      processBookDecision bd (some ex) true cached
        = (if ex.highlightsCount = 0 then SyncOutcome.skipped else SyncOutcome.updated)) ∧
    (∀ (bd : BookData) (ex : ExistingBookData) (cached : Option CachedBookInfo),
      bd.highlights = [] → hasUserNotes ex.fullContent = true →
      ex.highlightsCount = 0 →
      processBookDecision bd (some ex) false cached = .skipped) := by
  have hnone_cases : ∀ (bd : BookData) (track : Bool) (cached : Option CachedBookInfo),
      processBookDecision bd none track cached = .skipped ∨
        processBookDecision bd none track cached = .created := by
    intro bd track cached
    by_cases hc : (bd.highlights.isEmpty = true ∧ ¬ track = true)
    · left
      unfold processBookDecision
      rw [if_pos hc]
    · right
      unfold processBookDecision
      rw [if_neg hc]
  have hskip_or : ∀ (c : Prop) [Decidable c] (bd : BookData) (ex : ExistingBookData)
      (cached : Option CachedBookInfo),
      (if c then SyncOutcome.skipped else skipCheck bd ex cached) ≠ .deleted := by
    intro c _ bd ex cached
    split
    · simp
    · exact skipCheck_not_deleted bd ex cached
  have hempty_track : ∀ (bd : BookData) (ex : ExistingBookData)
      (cached : Option CachedBookInfo), bd.highlights.isEmpty = true →
      processBookDecision bd (some ex) true cached
        = (if ex.highlightsCount = 0 then SyncOutcome.skipped
            else skipCheck bd ex cached) := by
    intro bd ex cached hemp
    unfold processBookDecision
    simp [hemp]
  have hempty_user : ∀ (bd : BookData) (ex : ExistingBookData)
      (cached : Option CachedBookInfo), bd.highlights.isEmpty = true →
      hasUserNotes ex.fullContent = true →
      processBookDecision bd (some ex) false cached
        = (if ex.highlightsCount = 0 then SyncOutcome.skipped
            else skipCheck bd ex cached) := by
    intro bd ex cached hemp hun
    unfold processBookDecision
    simp [hemp, hun]
  have hempty_del : ∀ (bd : BookData) (ex : ExistingBookData)
      (cached : Option CachedBookInfo), bd.highlights.isEmpty = true →
      hasUserNotes ex.fullContent = false →
      processBookDecision bd (some ex) false cached = .deleted := by
    intro bd ex cached hemp hun
    unfold processBookDecision
    simp [hemp, hun]
  refine ⟨?_, ?_, ?_⟩
  · intro bd existing track cached
    rcases existing with - | ex
    · constructor
      · intro h
        rcases hnone_cases bd track cached with hc | hc <;> rw [hc] at h <;> cases h
      · rintro ⟨-, -, ex, hbad, -⟩
        cases hbad
    · by_cases hemp : bd.highlights.isEmpty = true
      · have hnil : bd.highlights = [] := by
          cases h : bd.highlights
          · rfl
          · rw [h] at hemp; cases hemp
        rcases htrack : track with - | -
        · by_cases hun : hasUserNotes ex.fullContent = true
          · rw [hempty_user bd ex cached hemp hun]
            constructor
            · intro h
              exact absurd h (hskip_or _ bd ex cached)
            · rintro ⟨-, -, ex2, hex2, hun2⟩
              cases hex2
              rw [hun] at hun2
              cases hun2
          · have hun' : hasUserNotes ex.fullContent = false := by
              cases h : hasUserNotes ex.fullContent
              · rfl
              · exact absurd h hun
            rw [hempty_del bd ex cached hemp hun']
            constructor
            · intro _
              exact ⟨hnil, rfl, ex, rfl, hun'⟩
            · intro _
              rfl
        · rw [hempty_track bd ex cached hemp]
          constructor
          · intro h
            exact absurd h (hskip_or _ bd ex cached)
          · rintro ⟨-, hbad, -⟩
            cases hbad
      · have hne' : bd.highlights.isEmpty = false := by
          cases h : bd.highlights.isEmpty
          · rfl
          · exact absurd h hemp
        rw [decision_nonempty bd ex track cached hne']
        constructor
        · intro h
          exact absurd h (skipCheck_not_deleted bd ex cached)
        · rintro ⟨hnil, -⟩
          rw [hnil] at hne'
          cases hne'
  · intro bd ex cached hnil hhash
    unfold processBookDecision
    rw [hnil]
    simp only [List.isEmpty_nil, if_true]
    by_cases hc : ex.highlightsCount = 0
    · simp [hc]
    · rw [if_neg hc, if_neg hc]
      unfold skipCheck
      rw [if_neg]
      rintro ⟨h1, -⟩
      unfold highlightsUnchanged at h1
      rw [hhash, hnil] at h1
      simp only [List.length_nil, Int.ofNat_eq_coe, Nat.cast_zero, beq_iff_eq] at h1
      exact hc h1
  · intro bd ex cached hnil hun hc
    unfold processBookDecision
    rw [hnil]
    simp [hun, hc]

/-- Witness for `processBook_delete_policy`: a book whose highlights
dropped to zero, with tracking off and a document holding no user notes,
is deleted. -/
theorem processBook_delete_policy_witness :
    processBookDecision { fixtureBook with highlights := [] }
        (some ⟨3, none, none, none, false, false, "# Dune\n\n## Highlights\n"⟩)
        false none
      = .deleted := by
  refine (processBook_delete_policy.1 _ _ _ _).mpr ?_
  exact ⟨rfl, rfl, _, rfl, by decide⟩

/-! ### C8 — the per-book path never fetches on demand -/

/-- C8 counterexample: with an empty cache and a missing cover, the
per-book metadata phase produces different outcomes depending on whether
the batch pre-fetch supplied a result — there is no on-demand re-fetch
(with no prefetched entry the description stays empty and the cache is
not modified; with one it is applied and cached). -/
theorem metadataPhase_prefetch_counterexample :
    metadataPhase fixtureBookNoPo none none false false "moonsync-covers/Dune.jpg"
      ≠ metadataPhase fixtureBookNoPo none
          (some { description := some "A description" }) false false
          "moonsync-covers/Dune.jpg" := by
  decide

/-- C8 (amended): the per-book path performs no on-demand fetch.  When the
batch pre-fetch misses a book, the metadata phase applies only the locally
cached entry (plus the already-on-disk cover path) and reports the cache
unmodified; its outcome never involves a remote result. -/
theorem metadataPhase_prefetch_miss :
    ∀ (bd : BookData) (cached : Option CachedBookInfo)
      (coverExists downloadOk : Bool) (p : String),
      (metadataPhase bd cached none coverExists downloadOk p).2 = false ∧
      (metadataPhase bd cached none coverExists downloadOk p).1
        = (let bd1 := match cached with
             | some ci => applyCachedInfo bd ci
             | none => bd
           if coverExists then { bd1 with coverPath := some p } else bd1) := by
  intro bd cached ce dl p
  cases cached <;> exact ⟨rfl, rfl⟩

/-! ### C3 — the second pass is not idempotent -/

/-- C3 (code bug): the writer emits neither a `highlights_hash` nor a
`last_read` header, so on the second pass over an unchanged source the
re-parsed document has `lastRead = none` while the book still carries its
last-read timestamp — the comparison fails and the synchronizer re-updates
the book instead of skipping it. -/
theorem secondRun_not_idempotent :
    processBookDecision fixtureBook none false (some fixtureCacheFull) = .created ∧
    (parseFrontmatter fixtureFirstContent).highlightsCount = some 1 ∧
    (parseFrontmatter fixtureFirstContent).highlightsHash = none ∧
    (parseFrontmatter fixtureFirstContent).lastRead = none ∧
    newLastRead fixtureBook.lastReadTimestamp = some "2023-11-14" ∧
    processBookDecision fixtureBook fixtureExisting false (some fixtureCacheFull)
      = .updated := by
  have hcount : (parseFrontmatter fixtureFirstContent).highlightsCount = some 1 := by
    decide
  refine ⟨by decide, hcount, by decide, by decide, by decide, ?_⟩
  have hfe : fixtureExisting
      = some { highlightsCount := 1,
               highlightsHash := (parseFrontmatter fixtureFirstContent).highlightsHash,
               progress := (parseFrontmatter fixtureFirstContent).progress,
               lastRead := (parseFrontmatter fixtureFirstContent).lastRead,
               isManualNote := (parseFrontmatter fixtureFirstContent).isManualNote,
               hasCustomMetadata := (parseFrontmatter fixtureFirstContent).hasCustomMetadata,
               fullContent := fixtureFirstContent } := by
    unfold fixtureExisting getExistingBookData
    simp only [if_true, hcount]
  rw [hfe]
  refine decision_updated_of_lastRead_ne _ _ _ _ (by decide) ?_
  show (parseFrontmatter fixtureFirstContent).lastRead ≠ _
  rw [show (parseFrontmatter fixtureFirstContent).lastRead = none from by decide]
  rw [show newLastRead fixtureBook.lastReadTimestamp = some "2023-11-14" from by decide]
  simp

/-! ### C6 — regeneration loses the user-notes section -/

/-- C6 (code bug): the current writer never emits a "My Notes" section or
its placeholder, so `mergeExistingNoteWithHighlights` extracts the user's
prose but the substitution into the fresh note finds no placeholder — the
merged document equals the fresh note and the user's prose is gone. -/
theorem mergeExistingNote_clobbers_user_notes :
    hasUserNotes fixtureUserContent = true ∧
    strContains (generateBookNote fixtureBook fixtureSettings "2026-10-12")
      placeholderL = false ∧
    mergeExistingNoteWithHighlights fixtureUserContent fixtureBook fixtureSettings
        "2026-10-12"
      = generateBookNote fixtureBook fixtureSettings "2026-10-12" ∧
    strContains
      (mergeExistingNoteWithHighlights fixtureUserContent fixtureBook fixtureSettings
        "2026-10-12")
      "My deep thoughts" = false := by
  exact ⟨by decide, by decide, by decide, by decide⟩

end MoonSync
